import Mathlib

/-!
Verification of the SYKR backend scraper core (src/backend/db.py,
src/backend/ats_scraper.py) against its natural-language specification.

The Python code is shallowly embedded: pure helpers become Lean functions on
`List Char` / `Nat`; the Supabase-backed store becomes an explicit in-memory
table threaded through the functions; fallible operations return `Except`.
Machine-level details that the claims do not touch (event loop scheduling,
actual network I/O, wall-clock timestamps) are abstracted as parameters.

Sections:
  1. Python string primitives (strip, lower, find/split) on `List Char`
  2. `urllib.parse` model (`urlsplit`, `urlparse`, `hostname`, `urlunparse`)
  3. `normalize_url`, SHA-256 and `hash_url`            (db.py lines 75-99)
  4. `get_client` / `_retry`                            (db.py lines 31-68)
  5. `upsert_job` over an explicit jobs table           (db.py lines 222-332)
  6. `scrape_company` response classification           (ats_scraper.py 125-174)
  7. checkpointing and the result-application loop      (ats_scraper.py 90-357)
  8. theorems for claims C1-C10
-/

namespace Sykr

/-! ## 1. Python string primitives on `List Char` -/

/-- ASCII lowercasing of one character, as used by `str.lower()` on the ASCII
    subset handled by this code base (scheme/host characters). -/
def toLowerA (c : Char) : Char :=
  match c with
  | 'A' => 'a' | 'B' => 'b' | 'C' => 'c' | 'D' => 'd' | 'E' => 'e' | 'F' => 'f'
  | 'G' => 'g' | 'H' => 'h' | 'I' => 'i' | 'J' => 'j' | 'K' => 'k' | 'L' => 'l'
  | 'M' => 'm' | 'N' => 'n' | 'O' => 'o' | 'P' => 'p' | 'Q' => 'q' | 'R' => 'r'
  | 'S' => 's' | 'T' => 't' | 'U' => 'u' | 'V' => 'v' | 'W' => 'w' | 'X' => 'x'
  | 'Y' => 'y' | 'Z' => 'z'
  | c => c

/-- The whitespace characters stripped by `str.strip()` (ASCII subset). -/
def isSpaceA (c : Char) : Bool :=
  c == ' ' || c == '\t' || c == '\n' || c == '\r' || c == '\x0b' || c == '\x0c'

/-- `str.strip()`. -/
def pyStrip (l : List Char) : List Char :=
  ((l.dropWhile isSpaceA).reverse.dropWhile isSpaceA).reverse

/-- `str.rstrip('/')`. -/
def rstripSlash (l : List Char) : List Char :=
  (l.reverse.dropWhile (fun c => c == '/')).reverse

/-- Characters unconditionally removed from a URL by `urllib.parse.urlsplit`
    (`_UNSAFE_URL_BYTES_TO_REMOVE`). -/
def isTabNl (c : Char) : Bool := c == '\t' || c == '\r' || c == '\n'

def removeTabNl (l : List Char) : List Char := l.filter (fun c => !(isTabNl c))

/-- `url.lstrip(_WHATWG_C0_CONTROL_OR_SPACE)` at the start of `urlsplit`:
    the C0 control characters and the space are `'\x00'`-`'\x20'`. -/
def lstripC0 (l : List Char) : List Char := l.dropWhile (fun c => c.toNat ≤ 0x20)

/-- Split at the first occurrence of `c`: `some (before, after)` or `none`. -/
def splitOnFirst (c : Char) : List Char → Option (List Char × List Char)
  | [] => none
  | a :: rest =>
    if a == c then some ([], rest)
    else (splitOnFirst c rest).map (fun p => (a :: p.1, p.2))

/-! ## 2. `urllib.parse` model -/

/-- Characters allowed in a URL scheme (`urllib.parse.scheme_chars`). -/
def isSchemeChar (c : Char) : Bool :=
  c.isAlpha || c.isDigit || c == '+' || c == '-' || c == '.'

/-- Scheme recognition of `urlsplit`: the prefix before the first `:` is a
    scheme when nonempty, starting with an ASCII letter and made of scheme
    characters; it is returned lowercased.  Otherwise no scheme is split. -/
def splitScheme (l : List Char) : List Char × List Char :=
  match splitOnFirst ':' l with
  | none => ([], l)
  | some (pre, post) =>
    match pre with
    | [] => ([], l)
    | c :: _ =>
      if c.isAlpha && pre.all isSchemeChar then (pre.map toLowerA, post) else ([], l)

def isNetlocDelim (c : Char) : Bool := c == '/' || c == '?' || c == '#'

/-- `url.split(c, 1)` with the no-occurrence default `(url, "")`. -/
def splitDef (c : Char) (l : List Char) : List Char × List Char :=
  match splitOnFirst c l with
  | some p => p
  | none => (l, [])

structure UrlSplit where
  scheme : List Char
  netloc : List Char
  path : List Char
  query : List Char
  frag : List Char
deriving DecidableEq

/-- `urllib.parse.urlsplit` (CPython 3.11).  Raises (`.error`) on a netloc
    with an unbalanced square bracket, exactly as CPython does.  Two checks
    that cannot fire on the ASCII, bracket-free URLs the claims quantify over
    are elided: `_check_bracketed_host` (rejects a bracketed host that is not
    an IPv6/IPvFuture literal) and `_checknetloc` (rejects non-ASCII netlocs
    whose NFKC normalization introduces a delimiter). -/
def urlsplitCore (url0 : List Char) : Except Unit UrlSplit :=
  let url1 := removeTabNl (lstripC0 url0)
  let sp := splitScheme url1
  let nl : List Char × List Char :=
    if sp.2.take 2 == ['/', '/'] then
      ((sp.2.drop 2).takeWhile (fun c => !(isNetlocDelim c)),
       (sp.2.drop 2).dropWhile (fun c => !(isNetlocDelim c)))
    else ([], sp.2)
  if (nl.1.contains '[' && !(nl.1.contains ']'))
      || (nl.1.contains ']' && !(nl.1.contains '[')) then .error ()
  else
    let fr : List Char × List Char := splitDef '#' nl.2
    let pq : List Char × List Char := splitDef '?' fr.1
    .ok ⟨sp.1, nl.1, pq.1, pq.2, fr.2⟩

/-- Schemes for which `urlparse` splits `;parameters` off the path
    (`urllib.parse.uses_params`). -/
def usesParams : List (List Char) :=
  [[], "ftp".data, "hdl".data, "prospero".data, "http".data, "imap".data,
   "https".data, "shttp".data, "rtsp".data, "rtsps".data, "rtspu".data,
   "sip".data, "sips".data, "mms".data, "sftp".data, "tel".data]

/-- `urllib.parse.uses_netloc`: schemes for which `urlunsplit` re-introduces
    an empty `//` authority. -/
def usesNetloc : List (List Char) :=
  [[], "ftp".data, "http".data, "gopher".data, "nntp".data, "telnet".data,
   "imap".data, "wais".data, "file".data, "mms".data, "https".data,
   "shttp".data, "snews".data, "prospero".data, "rtsp".data, "rtsps".data,
   "rtspu".data, "rsync".data, "svn".data, "svn+ssh".data, "sftp".data,
   "nfs".data, "git".data, "git+ssh".data, "ws".data, "wss".data]

/-- `urllib.parse._splitparams`, returning only the path part (the params are
    discarded by `normalize_url`).  Only called when `';'` occurs in the path. -/
def splitparams (l : List Char) : List Char :=
  if l.contains '/' then
    let b := (l.reverse.takeWhile (fun c => !(c == '/'))).reverse
    let a := l.take (l.length - b.length)
    match splitOnFirst ';' b with
    | none => l
    | some p => a ++ p.1
  else
    match splitOnFirst ';' l with
    | none => l
    | some p => p.1

/-- `urllib.parse.urlparse` (the fields used by `normalize_url`). -/
def urlparseCore (url0 : List Char) : Except Unit UrlSplit := do
  let s ← urlsplitCore url0
  if usesParams.contains s.scheme && s.path.contains ';' then
    .ok { s with path := splitparams s.path }
  else
    .ok s

/-- The `hostname` property of a parse result: the part of the netloc after
    the last `'@'`, then either the bracketed host (between the first `'['`
    and the following `']'`) or everything before the first `':'`, lowercased. -/
def hostOf (netloc : List Char) : List Char :=
  let hostinfo := (netloc.reverse.takeWhile (fun c => !(c == '@'))).reverse
  let h :=
    if hostinfo.contains '[' then
      ((hostinfo.dropWhile (fun c => !(c == '['))).drop 1).takeWhile (fun c => !(c == ']'))
    else hostinfo.takeWhile (fun c => !(c == ':'))
  h.map toLowerA

/-- `urllib.parse.urlunsplit` (= `urlunparse` with empty params), CPython
    3.11: `if netloc or (scheme and scheme in uses_netloc and url[:2] != '//')`
    re-attaches a `//` authority. -/
def urlunsplitCore (scheme netloc path query frag : List Char) : List Char :=
  let u1 : List Char :=
    if netloc != []
        || (scheme != [] && usesNetloc.contains scheme && path.take 2 != ['/', '/']) then
      let p := if path != [] && path.take 1 != ['/'] then '/' :: path else path
      '/' :: '/' :: (netloc ++ p)
    else path
  let u2 := if scheme != [] then scheme ++ ':' :: u1 else u1
  let u3 := if query != [] then u2 ++ '?' :: query else u2
  if frag != [] then u3 ++ '#' :: frag else u3

/-! ## 3. `normalize_url` and `hash_url` (db.py lines 75-99) -/

/-- The `www.` prefix removal step of `normalize_url`. -/
def wwwStrip (h : List Char) : List Char :=
  if h.take 4 == "www.".data then h.drop 4 else h

/-- The three components `(scheme, host, path)` that `normalize_url` rebuilds:
    scheme defaulted to `https` and lowercased, hostname lowercased with one
    `www.` prefix removed, path with trailing slashes stripped.  Query,
    params and fragment are dropped. -/
def normParts (url : List Char) : Except Unit (List Char × List Char × List Char) := do
  let p ← urlparseCore (pyStrip url)
  let scheme := (if p.scheme == [] then "https".data else p.scheme).map toLowerA
  let host := wwwStrip (hostOf p.netloc)
  let path := rstripSlash p.path
  .ok (scheme, host, path)

/-- `db.normalize_url` on `List Char`. -/
def normalizeList (url : List Char) : Except Unit (List Char) := do
  let p ← normParts url
  .ok (urlunsplitCore p.1 p.2.1 p.2.2 [] [])

/-- `db.normalize_url`.  `.error` models the `ValueError` CPython raises on a
    netloc with an unbalanced square bracket. -/
def normalize_url (url : String) : Except Unit String :=
  (normalizeList url.data).map (fun l => String.mk l)

/-! SHA-256, for `db.hash_url` (the claims only need that it is a function of
    the normalized URL, but it is implemented in full). -/

def utf8Enc (n : Nat) : List Nat :=
  if n < 0x80 then [n]
  else if n < 0x800 then [0xC0 + n / 0x40, 0x80 + n % 0x40]
  else if n < 0x10000 then
    [0xE0 + n / 0x1000, 0x80 + (n / 0x40) % 0x40, 0x80 + n % 0x40]
  else
    [0xF0 + n / 0x40000, 0x80 + (n / 0x1000) % 0x40,
     0x80 + (n / 0x40) % 0x40, 0x80 + n % 0x40]

def strBytes (l : List Char) : List Nat := (l.map (fun c => utf8Enc c.toNat)).flatten

def M32 : Nat := 4294967296

def rotr (n x : Nat) : Nat := ((x / 2 ^ n) + (x % 2 ^ n) * 2 ^ (32 - n)) % M32

def shaK : List Nat :=
  [1116352408, 1899447441, 3049323471, 3921009573, 961987163, 1508970993,
   2453635748, 2870763221, 3624381080, 310598401, 607225278, 1426881987,
   1925078388, 2162078206, 2614888103, 3248222580, 3835390401, 4022224774,
   264347078, 604807628, 770255983, 1249150122, 1555081692, 1996064986,
   2554220882, 2821834349, 2952996808, 3210313671, 3336571891, 3584528711,
   113926993, 338241895, 666307205, 773529912, 1294757372, 1396182291,
   1695183700, 1986661051, 2177026350, 2456956037, 2730485921, 2820302411,
   3259730800, 3345764771, 3516065817, 3600352804, 4094571909, 275423344,
   430227734, 506948616, 659060556, 883997877, 958139571, 1322822218,
   1537002063, 1747873779, 1955562222, 2024104815, 2227730452, 2361852424,
   2428436474, 2756734187, 3204031479, 3329325298]

def shaH0 : List Nat :=
  [1779033703, 3144134277, 1013904242, 2773480762,
   1359893119, 2600822924, 528734635, 1541459225]

def shaPad (m : List Nat) : List Nat :=
  let L := m.length
  let k := (119 - L % 64) % 64
  m ++ 0x80 :: List.replicate k 0 ++
    ([56, 48, 40, 32, 24, 16, 8, 0].map (fun i => (8 * L / 2 ^ i) % 256))

def chunksAux : Nat → List Nat → List (List Nat)
  | 0, _ => []
  | _, [] => []
  | fuel + 1, l => l.take 64 :: chunksAux fuel (l.drop 64)

def bytesToWords : List Nat → List Nat
  | b0 :: b1 :: b2 :: b3 :: rest =>
    (((b0 * 256 + b1) * 256 + b2) * 256 + b3) :: bytesToWords rest
  | _ => []

def smallS0 (x : Nat) : Nat := rotr 7 x ^^^ rotr 18 x ^^^ x / 2 ^ 3
def smallS1 (x : Nat) : Nat := rotr 17 x ^^^ rotr 19 x ^^^ x / 2 ^ 10
def bigS0 (x : Nat) : Nat := rotr 2 x ^^^ rotr 13 x ^^^ rotr 22 x
def bigS1 (x : Nat) : Nat := rotr 6 x ^^^ rotr 11 x ^^^ rotr 25 x

def scheduleAux : Nat → List Nat → List Nat
  | 0, w => w
  | fuel + 1, w =>
    scheduleAux fuel (w ++
      [(smallS1 (w.getD (w.length - 2) 0) + w.getD (w.length - 7) 0 +
        smallS0 (w.getD (w.length - 15) 0) + w.getD (w.length - 16) 0) % M32])

structure ShaState where
  a : Nat
  b : Nat
  c : Nat
  d : Nat
  e : Nat
  f : Nat
  g : Nat
  h : Nat

def shaRound (st : ShaState) (kw : Nat × Nat) : ShaState :=
  let ch := (st.e &&& st.f) ^^^ ((0xffffffff ^^^ st.e) &&& st.g)
  let t1 := (st.h + bigS1 st.e + ch + kw.1 + kw.2) % M32
  let mj := (st.a &&& st.b) ^^^ (st.a &&& st.c) ^^^ (st.b &&& st.c)
  let t2 := (bigS0 st.a + mj) % M32
  ⟨(t1 + t2) % M32, st.a, st.b, st.c, (st.d + t1) % M32, st.e, st.f, st.g⟩

def shaBlock (hs : List Nat) (block : List Nat) : List Nat :=
  let w := scheduleAux 48 (bytesToWords block)
  let st0 : ShaState :=
    ⟨hs.getD 0 0, hs.getD 1 0, hs.getD 2 0, hs.getD 3 0,
     hs.getD 4 0, hs.getD 5 0, hs.getD 6 0, hs.getD 7 0⟩
  let st := (shaK.zip w).foldl shaRound st0
  [(hs.getD 0 0 + st.a) % M32, (hs.getD 1 0 + st.b) % M32,
   (hs.getD 2 0 + st.c) % M32, (hs.getD 3 0 + st.d) % M32,
   (hs.getD 4 0 + st.e) % M32, (hs.getD 5 0 + st.f) % M32,
   (hs.getD 6 0 + st.g) % M32, (hs.getD 7 0 + st.h) % M32]

def hexDigit (n : Nat) : Char := "0123456789abcdef".data.getD n 'x'

def wordHex (n : Nat) : List Char :=
  [7, 6, 5, 4, 3, 2, 1, 0].map (fun i => hexDigit (n / 16 ^ i % 16))

/-- SHA-256 hex digest of a byte list. -/
def sha256hex (msg : List Nat) : String :=
  let padded := shaPad msg
  let hs := (chunksAux padded.length padded).foldl shaBlock shaH0
  String.mk ((hs.map wordHex).flatten)

/-- `db.hash_url`: SHA-256 hex digest of the UTF-8 encoded normalized URL. -/
def hash_url (url : String) : Except Unit String :=
  (normalize_url url).map (fun n => sha256hex (strBytes n.data))

/-! ## 4. `get_client` and `_retry` (db.py lines 26-68)

The module-global client singleton becomes an explicit `ClientState`;
`create_client` is modelled as handing out a fresh generation number. -/

def MAX_REQUESTS_BEFORE_RESET : Nat := 5000

structure ClientState where
  client : Option Nat
  request_count : Nat
  nextGen : Nat
  envOk : Bool
deriving DecidableEq

/-- `db.get_client`: recreate the client when absent or after
    `_MAX_REQUESTS_BEFORE_RESET` requests; `.error` models the
    `RuntimeError` when the environment variables are unset. -/
def get_client (st : ClientState) : Except Unit (Nat × ClientState) :=
  if st.client.isNone || decide (MAX_REQUESTS_BEFORE_RESET ≤ st.request_count) then
    if st.envOk then
      .ok (st.nextGen,
           { client := some st.nextGen, request_count := 1,
             nextGen := st.nextGen + 1, envOk := st.envOk })
    else .error ()
  else
    .ok (st.client.getD 0, { st with request_count := st.request_count + 1 })

/-- The fault signatures `_retry` looks for in the lowercased error text. -/
def connSignatures : List (List Char) :=
  ["connectionterminated".data, "remoteprotocolerror".data,
   "connectionreset".data, "connectionrefused".data, "broken pipe".data]

def listStartsWith : List Char → List Char → Bool
  | [], _ => true
  | _ :: _, [] => false
  | a :: as, b :: bs => a == b && listStartsWith as bs

/-- Python `needle in hay` on strings. -/
def containsSub (needle : List Char) : List Char → Bool
  | [] => needle == ([] : List Char)
  | c :: rest => listStartsWith needle (c :: rest) || containsSub needle rest

/-- The `is_connection_error` classification inside `_retry`: signature
    matching on the lowercased message, not on the exception type. -/
def is_connection_error (e : List Char) : Bool :=
  connSignatures.any (fun k => containsSub k (e.map toLowerA))

/-- Observable behavior of one `_retry` call: the final outcome, how many
    times the wrapped operation ran, the sleeps performed between attempts,
    and how many times `_request_count` was forced to the reset threshold
    (each such forcing makes the next `get_client` rebuild the client). -/
structure RetryTrace (α : Type) where
  result : Except (List Char) α
  attemptsMade : Nat
  sleeps : List Nat
  forcedResets : Nat

/-- The loop body of `db._retry`; `fuel` is `retries - attempt`, so the
    Python guard `attempt < retries - 1` is `0 < fuel - 1`.  `op i` is the
    outcome of running the wrapped operation the `i`-th time. -/
def retryAux (op : Nat → Except (List Char) α) (delay : Nat) :
    Nat → Nat → RetryTrace α
  | _, 0 => ⟨.error [], 0, [], 0⟩
  | attempt, fuel + 1 =>
    match op attempt with
    | .ok v => ⟨.ok v, attempt + 1, [], 0⟩
    | .error e =>
      if is_connection_error e && decide (0 < fuel) then
        let t := retryAux op delay (attempt + 1) fuel
        ⟨t.result, t.attemptsMade, delay * (attempt + 1) :: t.sleeps,
         t.forcedResets + 1⟩
      else ⟨.error e, attempt + 1, [], 0⟩

/-- `db._retry fn retries delay` (call sites use the defaults
    `retries = 3`, `delay = 1`). -/
def _retry (op : Nat → Except (List Char) α) (retries delay : Nat) : RetryTrace α :=
  retryAux op delay 0 retries

/-! ## 5. `upsert_job` (db.py lines 222-332)

The `jobs` table becomes an explicit list of rows; the DB-assigned row id is
a counter.  Fields of the Python row that no claim mentions (seniority,
platform, category, tags, easy_apply, posted_at, raw_data) are projected
away.  `StoreBehavior` injects the outcome of the three store round-trips of
one `upsert_job` call, each *after* the `_retry` policy has run. -/

structure JobArgs where
  url : String
  title : String
  ats_source : String
  company_name : Option String
  company_id : Option String
  location : Option String
  description : Option String
  salary_min : Option Int
  salary_max : Option Int
  remote_type : Option String
deriving DecidableEq

/-- Python truthiness of an optional string argument (`if company_name:`). -/
def truthyS : Option String → Bool
  | some s => s != ""
  | none => false

structure JobRow where
  id : Nat
  url_hash : String
  url : String
  title : String
  ats_source : String
  company_name : Option String
  company_id : Option String
  location : Option String
  description : Option String
  salary_min : Option Int
  salary_max : Option Int
  remote_type : Option String
  first_seen : Nat
  last_seen : Nat
  is_active : Bool
deriving DecidableEq

structure JobsDB where
  rows : List JobRow
  nextId : Nat
deriving DecidableEq

def pyStripS (s : String) : String := String.mk (pyStrip s.data)

def pyLowerS (s : String) : String := String.mk (s.data.map toLowerA)

/-- The row built by the `is_new` branch of `upsert_job`. -/
def insertRowOf (a : JobArgs) (uh : String) (id now : Nat) : JobRow :=
  { id := id
    url_hash := uh
    url := pyStripS a.url
    title := pyStripS a.title
    ats_source := pyStripS (pyLowerS a.ats_source)
    company_name := if truthyS a.company_name
      then some (pyStripS (a.company_name.getD "")) else none
    company_id := if truthyS a.company_id then a.company_id else none
    location := if truthyS a.location then some (pyStripS (a.location.getD "")) else none
    description := if truthyS a.description
      then some (pyStripS (String.mk ((a.description.getD "").data.take 500))) else none
    salary_min := a.salary_min
    salary_max := a.salary_max
    remote_type := match a.remote_type with
      | some r => if r == "remote" || r == "onsite" || r == "hybrid" || r == "unknown"
                  then some r else none
      | none => none
    first_seen := now
    last_seen := now
    is_active := true }

/-- The update applied by the already-exists branch of `upsert_job`: only
    `last_seen`, `is_active` and the three mutable fields are written. -/
def updateRowOf (r : JobRow) (a : JobArgs) (now : Nat) : JobRow :=
  { r with
    last_seen := now
    is_active := true
    company_id := if truthyS a.company_id then a.company_id else r.company_id
    salary_min := if a.salary_min.isSome then a.salary_min else r.salary_min
    salary_max := if a.salary_max.isSome then a.salary_max else r.salary_max }

structure StoreBehavior where
  selectOk : Bool
  insertOk : Bool
  updateOk : Bool
deriving DecidableEq

def allOk : StoreBehavior := ⟨true, true, true⟩

/-- `db.upsert_job`.  `.error` is an exception escaping the function: a
    `ValueError` from `hash_url` or a failure of the existence-check select
    (which sits outside any `try`).  A failing insert or update is caught
    inside `upsert_job` and turned into `(None, False)` with the table
    unchanged. -/
def upsert_job (b : StoreBehavior) (db : JobsDB) (a : JobArgs) (now : Nat) :
    Except Unit (JobsDB × Option JobRow × Bool) :=
  match hash_url a.url with
  | .error _ => .error ()
  | .ok uh =>
    if !b.selectOk then .error ()
    else
      match db.rows.filter (fun r => r.url_hash == uh) with
      | [] =>
        if b.insertOk then
          let row := insertRowOf a uh db.nextId now
          .ok ({ rows := db.rows ++ [row], nextId := db.nextId + 1 }, some row, true)
        else .ok (db, none, false)
      | r0 :: _ =>
        if b.updateOk then
          let newRows := db.rows.map
            (fun r => if r.id == r0.id then updateRowOf r a now else r)
          .ok ({ db with rows := newRows }, some (updateRowOf r0 a now), false)
        else .ok (db, none, false)

/-- `N`-fold reapplication of one canonical record through `upsert_job`,
    with `t i` the timestamp of the `i`-th application; returns the final
    table and the `is_new` flag of each application in order. -/
def upsertN (b : StoreBehavior) (a : JobArgs) (t : Nat → Nat) (db : JobsDB) :
    Nat → Except Unit (JobsDB × List Bool)
  | 0 => .ok (db, [])
  | n + 1 => do
    let p ← upsertN b a t db n
    let q ← upsert_job b p.1 a (t n)
    .ok (q.1, p.2 ++ [q.2.2])

/-! ## 6. `scrape_company` (ats_scraper.py lines 125-174) -/

structure Company where
  id : String
  slug : String
  ats : String
  api_url : String
  name : Option String
deriving DecidableEq

structure ParsedJob where
  url : String
  title : String
  location : Option String
  description : Option String
  salary_min : Option Int
  salary_max : Option Int
  remote_type : String
deriving DecidableEq

/-- What happened on the wire for one company: an HTTP response whose body
    either JSON-decoded to a payload or failed to decode, a timeout
    (`asyncio.TimeoutError`), a connection-level failure
    (`aiohttp.ClientError`), or any other exception. -/
inductive FetchOutcome (Payload : Type) where
  | ok (status : Nat) (body : Except String Payload)
  | timedOut
  | clientError (msg : String)
  | otherError (msg : String)

/-- `ats_scraper.scrape_company`: returns
    `(company_id, slug, parsed_jobs, error_message)`.  `parsers` is the
    `PARSERS` registry, `fetch` the response the network would produce. -/
def scrape_company (parsers : String → Option (Payload → String → List ParsedJob))
    (fetch : FetchOutcome Payload) (c : Company) :
    String × String × List ParsedJob × Option String :=
  if c.api_url == "" then (c.id, c.slug, [], some "no api_url")
  else
    match parsers c.ats with
    | none => (c.id, c.slug, [], some ("no parser for " ++ c.ats))
    | some parse_jobs =>
      match fetch with
      | .ok 200 (.ok data) => (c.id, c.slug, parse_jobs data c.slug, none)
      | .ok 200 (.error e) => (c.id, c.slug, [], some ("json decode error: " ++ e))
      | .ok 404 _ => (c.id, c.slug, [], none)
      | .ok 429 _ => (c.id, c.slug, [], some "rate limited (429)")
      | .ok s _ => (c.id, c.slug, [], some ("HTTP " ++ toString s))
      | .timedOut => (c.id, c.slug, [], some "timeout")
      | .clientError e => (c.id, c.slug, [], some ("connection error: " ++ e))
      | .otherError e => (c.id, c.slug, [], some ("unexpected error: " ++ e))

structure ScrapeResult where
  company_id : String
  slug : String
  jobs : List ParsedJob
  error : Option String
deriving DecidableEq

def resultOfTuple (t : String × String × List ParsedJob × Option String) : ScrapeResult :=
  ⟨t.1, t.2.1, t.2.2.1, t.2.2.2⟩

/-! ## 7. Checkpointing and the result-application loop
(ats_scraper.py lines 90-119 and 181-357)

The checkpoint file becomes `Option Checkpoint` (its `updated_at` timestamp
is projected away); `saveOk i` tells whether the `i`-th `save_checkpoint`
call succeeds at the OS level (`OSError` is swallowed either way).
`db.update_company` (target-metadata refresh) swallows every exception and
touches only the external companies table, so it has no observable effect on
this state and is not represented. -/

structure Checkpoint where
  completed_ids : List String
  run_id : Option String
  total_jobs : Nat
  new_jobs : Nat
  errors : Nat
deriving DecidableEq

/-- `set.add` on the completed-id set (modelled as a duplicate-free list). -/
def insertId (l : List String) (id : String) : List String :=
  if l.contains id then l else l ++ [id]

/-- State of `run_scraper` during result application. `saves` records every
    checkpoint successfully written, in order. -/
structure LoopSt where
  db : JobsDB
  completed : List String
  total_jobs : Nat
  new_jobs : Nat
  errors : Nat
  companies_with_jobs : Nat
  run_id : Option String
  dry_run : Bool
  saveIdx : Nat
  disk : Option Checkpoint
  saves : List Checkpoint
deriving DecidableEq

def cpOf (st : LoopSt) : Checkpoint :=
  ⟨st.completed, st.run_id, st.total_jobs, st.new_jobs, st.errors⟩

/-- `save_checkpoint`: on OS failure the exception is swallowed and the
    on-disk file is left as it was. -/
def save_checkpoint (saveOk : Nat → Bool) (st : LoopSt) : LoopSt :=
  if saveOk st.saveIdx then
    { st with disk := some (cpOf st), saves := st.saves ++ [cpOf st],
              saveIdx := st.saveIdx + 1 }
  else { st with saveIdx := st.saveIdx + 1 }

/-- The `for job in parsed_jobs: db.upsert_job(...)` loop: sequential, stops
    at the first escaping exception; `.error` carries the table and new-count
    accumulated before the failure. -/
def upsertAll (b : String → Nat → StoreBehavior) (cid : String) (now : Nat)
    (db : JobsDB) (newCount idx : Nat) :
    List JobArgs → Except (JobsDB × Nat) (JobsDB × Nat)
  | [] => .ok (db, newCount)
  | a :: rest =>
    match upsert_job (b cid idx) db a now with
    | .error _ => .error (db, newCount)
    | .ok (db', _, isNew) =>
      upsertAll b cid now db' (newCount + if isNew then 1 else 0) (idx + 1) rest

/-- The arguments `run_scraper` passes to `db.upsert_job` for one parsed
    job (lines 300-316). -/
def jobArgsOf (j : ParsedJob) (companyName : Option String) (cid : String)
    (ats : String) : JobArgs :=
  { url := j.url
    title := j.title
    ats_source := ats
    company_name := companyName
    company_id := some cid
    location := j.location
    description := j.description
    salary_min := j.salary_min
    salary_max := j.salary_max
    remote_type := some j.remote_type }

/-- `company_info = next((c for c in remaining if c["id"] == company_id), None)`
    followed by `.get("name")`. -/
def companyNameFor (remaining : List Company) (cid : String) : Option String :=
  (remaining.find? (fun c => c.id == cid)).bind (fun c => c.name)

/-- `company_info.get("ats", "unknown") if company_info else "unknown"`. -/
def atsFor (remaining : List Company) (cid : String) : String :=
  match remaining.find? (fun c => c.id == cid) with
  | some c => c.ats
  | none => "unknown"

/-- The `db.upsert_job` argument lists for one target's parsed jobs. -/
def argsFor (remaining : List Company) (r : ScrapeResult) : List JobArgs :=
  r.jobs.map (fun j =>
    jobArgsOf j (companyNameFor remaining r.company_id) r.company_id
      (atsFor remaining r.company_id))

/-- One iteration of the result-application loop of `run_scraper`
    (lines 267-357).  `.error` is the fatal path: the `except` block that
    counts the error, saves the checkpoint synchronously and re-raises. -/
def processOne (beh : String → Nat → StoreBehavior) (remaining : List Company)
    (saveOk : Nat → Bool) (now : Nat) (st : LoopSt) (r : ScrapeResult) :
    Except LoopSt LoopSt :=
  if r.error.isSome then
    .ok { st with errors := st.errors + 1,
                  completed := insertId st.completed r.company_id }
  else if r.jobs.isEmpty then
    .ok { st with completed := insertId st.completed r.company_id }
  else
    let st1 := { st with companies_with_jobs := st.companies_with_jobs + 1,
                         total_jobs := st.total_jobs + r.jobs.length }
    if st1.dry_run then
      .ok { st1 with new_jobs := st1.new_jobs + r.jobs.length,
                     completed := insertId st1.completed r.company_id }
    else
      match upsertAll beh r.company_id now st1.db 0 0 (argsFor remaining r) with
      | .ok (db', nc) =>
        let st2 := { st1 with db := db', new_jobs := st1.new_jobs + nc,
                              completed := insertId st1.completed r.company_id }
        if st2.completed.length % 10 == 0 then .ok (save_checkpoint saveOk st2)
        else .ok st2
      | .error (db', nc) =>
        let st2 := { st1 with db := db', new_jobs := st1.new_jobs + nc,
                              errors := st1.errors + 1 }
        .error (save_checkpoint saveOk st2)

/-- The whole result-application loop; `.error` means the run aborted with
    the re-raised store failure. -/
def applyResults (beh : String → Nat → StoreBehavior) (remaining : List Company)
    (saveOk : Nat → Bool) (now : Nat) (st : LoopSt) :
    List ScrapeResult → Except LoopSt LoopSt
  | [] => .ok st
  | r :: rest =>
    match processOne beh remaining saveOk now st r with
    | .ok st' => applyResults beh remaining saveOk now st' rest
    | .error st' => .error st'

/-- Result application followed by `clear_checkpoint()` on clean completion
    (lines 359-384). -/
def run_apply (beh : String → Nat → StoreBehavior) (remaining : List Company)
    (saveOk : Nat → Bool) (now : Nat) (st : LoopSt) (rs : List ScrapeResult) :
    Except LoopSt LoopSt :=
  match applyResults beh remaining saveOk now st rs with
  | .ok st' => .ok { st' with disk := none }
  | .error st' => .error st'

/-- The pre-fetch phase of `run_scraper` (lines 192-224): checkpoint
    handling, filters, and the subtraction of already-completed targets.
    `none` models the early return when no companies match. -/
structure PrepSt where
  companies : List Company
  remaining : List Company
  completed : List String
  run_id : Option String
  prev_total : Nat
  prev_new : Nat
  prev_errors : Nat
  disk : Option Checkpoint
deriving DecidableEq

def prepareRun (resume fresh : Bool) (disk : Option Checkpoint)
    (companies0 : List Company) (companyFilter : Option String)
    (lim : Option Nat) : Option PrepSt :=
  let cp : Option Checkpoint := if resume && !fresh then disk else none
  let completed : List String := (cp.map (fun c : Checkpoint => c.completed_ids)).getD []
  let rid : Option String := cp.bind (fun c : Checkpoint => c.run_id)
  let pt : Nat := (cp.map (fun c : Checkpoint => c.total_jobs)).getD 0
  let pn : Nat := (cp.map (fun c : Checkpoint => c.new_jobs)).getD 0
  let pe : Nat := (cp.map (fun c : Checkpoint => c.errors)).getD 0
  let disk1 : Option Checkpoint := if fresh then none else disk
  let companies1 := match companyFilter with
    | some f => companies0.filter (fun c : Company => c.slug == pyLowerS f)
    | none => companies0
  let companies2 := match lim with
    | some n => if n == 0 then companies1 else companies1.take n
    | none => companies1
  if companies2.isEmpty then none
  else
    let remaining := companies2.filter (fun c : Company => !(completed.contains c.id))
    some ⟨companies2, remaining, completed, rid, pt, pn, pe, disk1⟩

/-! ## Statement-level helpers -/

/-- A URL assembled from scheme, host, path, an optional extra trailing
    slash, and an optional query string — the shape quantified over by the
    dedup-collapse claim. -/
def renderURL (s h p : List Char) (t : Bool) (q : Option (List Char)) : List Char :=
  s ++ ':' :: '/' :: '/' :: (h ++ p ++ (if t then ['/'] else []) ++
    (match q with | some qs => '?' :: qs | none => []))

/-- A well-formed scheme in the sense of `urlsplit`: nonempty, letter-first,
    scheme characters only. -/
def goodSchemeB (s : List Char) : Bool :=
  match s with
  | [] => false
  | c :: _ => c.isAlpha && s.all isSchemeChar

/-- A plain registered-name host: no URL delimiters, no userinfo/port/bracket
    markers, no control characters or spaces. -/
def goodHostB (h : List Char) : Bool :=
  h.all (fun c => !(c == '/' || c == '?' || c == '#' || c == '@' || c == ':'
    || c == '[' || c == ']' || decide (c.toNat ≤ 0x20)))

/-- A well-formed absolute path for `renderURL`: empty or slash-led, free of
    query/fragment markers, of `';'` (whose params handling is
    position-dependent), of the characters `urlsplit` deletes, and not ending
    in whitespace (which the outer `strip()` would eat). -/
def goodPathB (p : List Char) : Bool :=
  (p.isEmpty || p.headD ' ' == '/') &&
  p.all (fun c => !(c == '?' || c == '#' || c == ';' || isTabNl c)) &&
  (p.isEmpty || !(isSpaceA (p.getLastD ' ')))

/-- The final loop state, whether the run completed or aborted. -/
def finalSt : Except LoopSt LoopSt → LoopSt
  | .ok st => st
  | .error st => st

def abortedE : Except LoopSt LoopSt → Bool
  | .ok _ => false
  | .error _ => true

/-- Everything in `LoopSt` except the on-disk checkpoint and the record of
    successful writes — the part of the state that `save_checkpoint` outcomes
    must not influence. -/
structure LoopCore where
  db : JobsDB
  completed : List String
  total_jobs : Nat
  new_jobs : Nat
  errors : Nat
  companies_with_jobs : Nat
  run_id : Option String
  dry_run : Bool
  saveIdx : Nat
deriving DecidableEq

def coreOf (st : LoopSt) : LoopCore :=
  ⟨st.db, st.completed, st.total_jobs, st.new_jobs, st.errors,
   st.companies_with_jobs, st.run_id, st.dry_run, st.saveIdx⟩

/-- Two loop outcomes agree on everything but the on-disk checkpoint. -/
def coreRel : Except LoopSt LoopSt → Except LoopSt LoopSt → Prop
  | .ok a, .ok b => coreOf a = coreOf b
  | .error a, .error b => coreOf a = coreOf b
  | _, _ => False

/-! Concrete scenario pieces used by witnesses and counterexamples. -/

/-- The loop state at the start of a fresh, non-dry run. -/
def st0 : LoopSt := ⟨⟨[], 0⟩, [], 0, 0, 0, 0, none, false, 0, none, []⟩

def behOk : String → Nat → StoreBehavior := fun _ _ => allOk

def saveAll : Nat → Bool := fun _ => true

def wCompany (i : Nat) : Company :=
  ⟨"c" ++ toString i, "slug" ++ toString i, "greenhouse", "https://api.example/x",
   some ("Name" ++ toString i)⟩

def wJob (i : Nat) : ParsedJob :=
  ⟨"https://jobs.example/" ++ toString i, "Engineer", none, none, none, none, "unknown"⟩

def wOkResult (i : Nat) : ScrapeResult :=
  ⟨"c" ++ toString i, "slug" ++ toString i, [wJob i], none⟩

def wErrResult (i : Nat) : ScrapeResult :=
  ⟨"c" ++ toString i, "slug" ++ toString i, [], some "no api_url"⟩

/-- Store behavior whose insert fails (post-retry) for company `c0`. -/
def behInsFail : String → Nat → StoreBehavior :=
  fun cid _ => if cid == "c0" then ⟨true, false, true⟩ else allOk

/-- Store behavior whose existence-check select fails (post-retry) for
    company `c0`. -/
def behSelFail : String → Nat → StoreBehavior :=
  fun cid _ => if cid == "c0" then ⟨false, true, true⟩ else allOk

/-- A trivial adapter registry knowing only `greenhouse`. -/
def wParsers : String → Option (Unit → String → List ParsedJob) :=
  fun a => if a == "greenhouse" then some (fun _ _ => [wJob 0]) else none

/-- Canonical record used by the `upsert_job` witness. -/
def wArgs : JobArgs :=
  ⟨" https://X.example/a ", " Engineer ", "Greenhouse", some "Acme", some "cid77",
   some "NYC", some "desc", some 100000, some 150000, some "remote"⟩

/-- Checkpoint and target list for the 25-target resume witness. -/
def wCheckpoint : Checkpoint :=
  ⟨(List.range 10).map (fun i => "c" ++ toString i), some "run-1", 40, 7, 2⟩

def wCompanies : List Company := (List.range 25).map wCompany

/-- Query strings quantified over by the dedup-collapse claim: free of the
    fragment marker and of whitespace (so neither the fragment split nor the
    outer `strip()` can touch them). -/
def goodQueryB : Option (List Char) → Bool
  | none => true
  | some qs => qs.all (fun c => !(c == '#' || isSpaceA c))

/-! ## 8. Theorems -/

/-- C3: the fetch stage classifies every response exactly per the table: a
    200 with a decodable body runs the adapter with no error; a 200 with an
    undecodable body is a decode-failure error; 404 is an empty record list
    with no error; 429 is a rate-limited error; any other status is a generic
    HTTP error carrying the status; a timeout and a connection-level failure
    map to their errors; and a target with no endpoint or no registered
    adapter is skipped with the corresponding error, independently of what
    the network would have returned. -/
theorem C3_fetch_classification {Payload : Type}
    (parsers : String → Option (Payload → String → List ParsedJob)) (c : Company) :
    (c.api_url = "" →
      ∀ f : FetchOutcome Payload,
        scrape_company parsers f c = (c.id, c.slug, [], some "no api_url")) ∧
    (c.api_url ≠ "" → parsers c.ats = none →
      ∀ f : FetchOutcome Payload,
        scrape_company parsers f c
          = (c.id, c.slug, [], some ("no parser for " ++ c.ats))) ∧
    (∀ pj, c.api_url ≠ "" → parsers c.ats = some pj →
      (∀ data, scrape_company parsers (.ok 200 (.ok data)) c
          = (c.id, c.slug, pj data c.slug, none)) ∧
      (∀ e, scrape_company parsers (.ok 200 (.error e)) c
          = (c.id, c.slug, [], some ("json decode error: " ++ e))) ∧
      (∀ b, scrape_company parsers (.ok 404 b) c = (c.id, c.slug, [], none)) ∧
      (∀ b, scrape_company parsers (.ok 429 b) c
          = (c.id, c.slug, [], some "rate limited (429)")) ∧
      (∀ s b, s ≠ 200 → s ≠ 404 → s ≠ 429 →
        scrape_company parsers (.ok s b) c
          = (c.id, c.slug, [], some ("HTTP " ++ toString s))) ∧
      scrape_company parsers (.timedOut : FetchOutcome Payload) c
          = (c.id, c.slug, [], some "timeout") ∧
      (∀ e, scrape_company parsers (.clientError e : FetchOutcome Payload) c
          = (c.id, c.slug, [], some ("connection error: " ++ e))) ∧
      (∀ e, scrape_company parsers (.otherError e : FetchOutcome Payload) c
          = (c.id, c.slug, [], some ("unexpected error: " ++ e)))) := by
  refine ⟨fun h f => ?_, fun h hp f => ?_, fun pj h hp => ?_⟩
  · simp [scrape_company, h]
  · simp [scrape_company, beq_iff_eq, h, hp]
  · have hne : (c.api_url == "") = false := by simp [beq_iff_eq, h]
    refine ⟨fun data => ?_, fun e => ?_, fun b => ?_, fun b => ?_,
            fun s b h2 h4 h9 => ?_, ?_, fun e => ?_, fun e => ?_⟩
    · simp [scrape_company, hne, hp]
    · simp [scrape_company, hne, hp]
    · cases b <;> simp [scrape_company, hne, hp]
    · cases b <;> simp [scrape_company, hne, hp]
    · simp only [scrape_company, hne, Bool.false_eq_true, if_false, hp]
      split <;> simp_all
    · simp [scrape_company, hne, hp]
    · simp [scrape_company, hne, hp]
    · simp [scrape_company, hne, hp]

/-- C3 witness: the classification at a concrete company and responses. -/
theorem C3_witness :
    scrape_company wParsers (.ok 404 (.ok ())) (wCompany 1)
        = ((wCompany 1).id, (wCompany 1).slug, [], none) ∧
    scrape_company wParsers (.ok 500 (.ok ())) (wCompany 1)
        = ((wCompany 1).id, (wCompany 1).slug, [], some "HTTP 500") := by
  have h := C3_fetch_classification wParsers (wCompany 1)
  have h3 := h.2.2 (fun _ _ => [wJob 0]) (by decide) rfl
  exact ⟨h3.2.2.1 (.ok ()), h3.2.2.2.2.1 500 (.ok ())
    (by decide) (by decide) (by decide)⟩

/-- C4 is falsified: a target with no endpoint and a target with no
    registered adapter each increment the error counter (the code only
    suppresses the warning log for them); after applying those two results
    the counter is 2, where the claim demands 0.  (HTTP 404 does contribute
    zero, as the amended C4 theorem shows.) -/
theorem C4_counterexample :
    abortedE (applyResults behOk [] saveAll 0 st0
      [resultOfTuple (scrape_company wParsers (.timedOut : FetchOutcome Unit)
        ⟨"c1", "s1", "greenhouse", "", none⟩),
       resultOfTuple (scrape_company wParsers (.timedOut : FetchOutcome Unit)
        ⟨"c2", "s2", "lever", "https://api.example/x", none⟩)]) = false ∧
    (finalSt (applyResults behOk [] saveAll 0 st0
      [resultOfTuple (scrape_company wParsers (.timedOut : FetchOutcome Unit)
        ⟨"c1", "s1", "greenhouse", "", none⟩),
       resultOfTuple (scrape_company wParsers (.timedOut : FetchOutcome Unit)
        ⟨"c2", "s2", "lever", "https://api.example/x", none⟩)])).errors = 2 := by
  decide

/-- C4 amended: an HTTP 404 target contributes zero to the error counter,
    while a target with no endpoint and a target with no registered adapter
    are skipped without a network call but each contribute one. -/
theorem C4_amended {Payload : Type}
    (parsers : String → Option (Payload → String → List ParsedJob))
    (beh : String → Nat → StoreBehavior) (remaining : List Company)
    (saveOk : Nat → Bool) (now : Nat) (st : LoopSt) (c : Company) :
    (∀ b pj, c.api_url ≠ "" → parsers c.ats = some pj →
      processOne beh remaining saveOk now st
          (resultOfTuple (scrape_company parsers (.ok 404 b) c))
        = .ok { st with completed := insertId st.completed c.id }) ∧
    (c.api_url = "" → ∀ f : FetchOutcome Payload,
      processOne beh remaining saveOk now st
          (resultOfTuple (scrape_company parsers f c))
        = .ok { st with errors := st.errors + 1,
                        completed := insertId st.completed c.id }) ∧
    (c.api_url ≠ "" → parsers c.ats = none → ∀ f : FetchOutcome Payload,
      processOne beh remaining saveOk now st
          (resultOfTuple (scrape_company parsers f c))
        = .ok { st with errors := st.errors + 1,
                        completed := insertId st.completed c.id }) := by
  obtain ⟨h1, h2, h3⟩ := C3_fetch_classification parsers c
  refine ⟨fun b pj hu hp => ?_, fun hu f => ?_, fun hu hp f => ?_⟩
  · rw [(h3 pj hu hp).2.2.1 b]
    simp [resultOfTuple, processOne]
  · rw [h1 hu f]
    simp [resultOfTuple, processOne]
  · rw [h2 hu hp f]
    simp [resultOfTuple, processOne]

/-- C4 amended witness: at a concrete company, 404 leaves the counter alone
    and a missing endpoint increments it. -/
theorem C4_amended_witness :
    processOne behOk [] saveAll 0 st0
        (resultOfTuple (scrape_company wParsers (.ok 404 (.ok ())) (wCompany 1)))
      = .ok { st0 with completed := insertId st0.completed (wCompany 1).id } ∧
    processOne behOk [] saveAll 0 st0
        (resultOfTuple (scrape_company wParsers (.timedOut : FetchOutcome Unit)
          ⟨"c9", "s9", "greenhouse", "", none⟩))
      = .ok { st0 with errors := st0.errors + 1,
                       completed := insertId st0.completed "c9" } := by
  have h1 := (C4_amended wParsers behOk [] saveAll 0 st0 (wCompany 1)).1
    (.ok ()) (fun _ _ => [wJob 0]) (by decide) rfl
  have h2 := (C4_amended wParsers behOk [] saveAll 0 st0
    ⟨"c9", "s9", "greenhouse", "", none⟩).2.1 rfl .timedOut
  exact ⟨h1, h2⟩

/-- C5 is falsified: ten targets that all failed are processed — the
    completed-id count reaches 10 — yet no checkpoint is ever written to
    disk, because the save only happens in the successful-application branch
    of the loop, which errored and empty targets skip. -/
theorem C5_counterexample :
    abortedE (applyResults behOk [] saveAll 0 st0
      ((List.range 10).map wErrResult)) = false ∧
    (finalSt (applyResults behOk [] saveAll 0 st0
      ((List.range 10).map wErrResult))).completed.length = 10 ∧
    (finalSt (applyResults behOk [] saveAll 0 st0
      ((List.range 10).map wErrResult))).disk = none ∧
    (finalSt (applyResults behOk [] saveAll 0 st0
      ((List.range 10).map wErrResult))).saves = [] := by
  decide

/-- C5 amended: during result application the checkpoint is written only
    when a non-dry-run target whose records were all successfully applied
    brings the completed-id count to an exact multiple of 10; errored,
    empty and dry-run targets advance the count but never write; and when a
    write does happen (and the OS call succeeds) the file holds exactly the
    current completed-id set and running totals. -/
theorem C5_amended (beh : String → Nat → StoreBehavior) (remaining : List Company)
    (saveOk : Nat → Bool) (now : Nat) (st : LoopSt) (r : ScrapeResult) :
    (r.error.isSome = true →
      processOne beh remaining saveOk now st r
        = .ok { st with errors := st.errors + 1,
                        completed := insertId st.completed r.company_id }) ∧
    (r.error = none → r.jobs = [] →
      processOne beh remaining saveOk now st r
        = .ok { st with completed := insertId st.completed r.company_id }) ∧
    (r.error = none → r.jobs ≠ [] → st.dry_run = true →
      processOne beh remaining saveOk now st r
        = .ok { st with companies_with_jobs := st.companies_with_jobs + 1,
                        total_jobs := st.total_jobs + r.jobs.length,
                        new_jobs := st.new_jobs + r.jobs.length,
                        completed := insertId st.completed r.company_id }) ∧
    (∀ db' nc, r.error = none → r.jobs ≠ [] → st.dry_run = false →
      upsertAll beh r.company_id now st.db 0 0 (argsFor remaining r) = .ok (db', nc) →
      processOne beh remaining saveOk now st r =
        (let st2 : LoopSt :=
          { st with companies_with_jobs := st.companies_with_jobs + 1,
                    total_jobs := st.total_jobs + r.jobs.length,
                    db := db', new_jobs := st.new_jobs + nc,
                    completed := insertId st.completed r.company_id }
         if st2.completed.length % 10 == 0 then .ok (save_checkpoint saveOk st2)
         else .ok st2)) ∧
    (∀ st2 : LoopSt, saveOk st2.saveIdx = true →
      (save_checkpoint saveOk st2).disk
        = some ⟨st2.completed, st2.run_id, st2.total_jobs, st2.new_jobs, st2.errors⟩) := by
  refine ⟨fun he => ?_, fun he hj => ?_, fun he hj hd => ?_,
          fun db' nc he hj hd hup => ?_, fun st2 hs => ?_⟩
  · simp [processOne, he]
  · simp [processOne, he, hj]
  · simp [processOne, he, hj, hd]
  · simp only [processOne, he, Option.isSome_none, Bool.false_eq_true, if_false,
      List.isEmpty_eq_true, hj, hd, hup]
  · simp [save_checkpoint, hs, cpOf]

/-- C5 amended witness: a tenth successfully-applied target triggers the
    checkpoint write, and the file then holds all ten completed ids and the
    running totals. -/
theorem C5_amended_witness :
    (finalSt (processOne behOk ((List.range 10).map wCompany) saveAll 5
        { st0 with completed := (List.range 9).map (fun i => "c" ++ toString i),
                   total_jobs := 9, new_jobs := 9 }
        (wOkResult 9))).disk
      = some ⟨(List.range 10).map (fun i => "c" ++ toString i), none, 10, 10, 0⟩ := by
  obtain ⟨-, -, -, h4, -⟩ := C5_amended behOk ((List.range 10).map wCompany) saveAll 5
    { st0 with completed := (List.range 9).map (fun i => "c" ++ toString i),
               total_jobs := 9, new_jobs := 9 }
    (wOkResult 9)
  rw [h4 _ _ rfl (by decide) rfl rfl]
  rfl

/-! Helper lemmas for the fatal-path and save-oracle claims. -/

theorem save_checkpoint_fields (o : Nat → Bool) (s : LoopSt) :
    (save_checkpoint o s).completed = s.completed ∧
    (save_checkpoint o s).errors = s.errors ∧
    (save_checkpoint o s).total_jobs = s.total_jobs ∧
    (save_checkpoint o s).new_jobs = s.new_jobs ∧
    (save_checkpoint o s).run_id = s.run_id ∧
    cpOf (save_checkpoint o s) = cpOf s := by
  unfold save_checkpoint
  split <;> simp [cpOf]

theorem processOne_error_inv (beh : String → Nat → StoreBehavior)
    (remaining : List Company) (saveOk : Nat → Bool) (now : Nat)
    (st stF : LoopSt) (r : ScrapeResult)
    (hfatal : processOne beh remaining saveOk now st r = .error stF) :
    ∃ db' nc,
      upsertAll beh r.company_id now st.db 0 0 (argsFor remaining r) = .error (db', nc) ∧
      stF = save_checkpoint saveOk
        { st with companies_with_jobs := st.companies_with_jobs + 1,
                  total_jobs := st.total_jobs + r.jobs.length,
                  db := db', new_jobs := st.new_jobs + nc,
                  errors := st.errors + 1 } := by
  rcases he : r.error with - | err
  · rcases hj : r.jobs with - | ⟨j, js⟩
    · simp [processOne, he, hj] at hfatal
    · cases hd : st.dry_run
      · rcases hup : upsertAll beh r.company_id now st.db 0 0 (argsFor remaining r)
          with ⟨pdb, pnc⟩ | ⟨pdb, pnc⟩
        · simp only [processOne, he, hj, hd, hup, Option.isSome_none,
            Bool.false_eq_true, if_false, List.isEmpty_cons,
            Except.error.injEq] at hfatal
          exact ⟨pdb, pnc, rfl, hfatal.symm⟩
        · simp only [processOne, he, hj, hd, hup, Option.isSome_none,
            Bool.false_eq_true, if_false, List.isEmpty_cons] at hfatal
          split at hfatal <;> exact absurd hfatal (by simp)
      · simp [processOne, he, hj, hd] at hfatal
  · simp [processOne, he] at hfatal

/-- C6 is falsified: a failure to write an applied record to the store does
    not abort the run.  Here the insert for target `c0`'s record fails (after
    retries); `upsert_job` swallows it and returns `(None, False)`, the error
    counter stays 0, and the following target `c1` is still processed — the
    run completes with both targets marked completed. -/
theorem C6_counterexample :
    abortedE (applyResults behInsFail ((List.range 2).map wCompany) saveAll 5 st0
      ((List.range 2).map wOkResult)) = false ∧
    (finalSt (applyResults behInsFail ((List.range 2).map wCompany) saveAll 5 st0
      ((List.range 2).map wOkResult))).completed = ["c0", "c1"] ∧
    (finalSt (applyResults behInsFail ((List.range 2).map wCompany) saveAll 5 st0
      ((List.range 2).map wOkResult))).errors = 0 := by
  decide

/-- C6 amended: only an exception escaping `upsert_job` — a failure of the
    existence-check select (or of identity hashing), not of the insert/update
    write — aborts the run; then the checkpoint is saved synchronously first
    (and reflects the state at propagation), the failing target is not marked
    completed, and no target after it is processed.  A failed insert or
    update write is swallowed inside `upsert_job`: it always returns
    normally when the existence check and hashing succeed. -/
theorem C6_amended (beh : String → Nat → StoreBehavior) (remaining : List Company)
    (saveOk : Nat → Bool) (now : Nat) (st stF : LoopSt) (r : ScrapeResult)
    (hsave : ∀ i, saveOk i = true)
    (hfatal : processOne beh remaining saveOk now st r = .error stF) :
    (∀ rest, applyResults beh remaining saveOk now st (r :: rest) = .error stF) ∧
    stF.completed = st.completed ∧
    stF.errors = st.errors + 1 ∧
    stF.disk = some (cpOf stF) ∧
    (∀ (b : StoreBehavior) (db : JobsDB) (a : JobArgs) (n : Nat) (uh : String),
      hash_url a.url = .ok uh → b.selectOk = true →
      ∃ res, upsert_job b db a n = .ok res) := by
  obtain ⟨db', nc, -, hF⟩ :=
    processOne_error_inv beh remaining saveOk now st stF r hfatal
  refine ⟨fun rest => ?_, ?_, ?_, ?_, fun b db a n uh hh hs => ?_⟩
  · simp [applyResults, hfatal]
  · rw [hF]; exact (save_checkpoint_fields _ _).1
  · rw [hF, (save_checkpoint_fields _ _).2.1]
  · rw [hF]
    unfold save_checkpoint
    rw [hsave]
    simp [cpOf]
  · unfold upsert_job
    rw [hh, hs]
    simp only [Bool.not_true, Bool.false_eq_true, if_false]
    split
    · split
      · exact ⟨_, rfl⟩
      · exact ⟨_, rfl⟩
    · split
      · exact ⟨_, rfl⟩
      · exact ⟨_, rfl⟩

/-- C6 amended witness: with the existence check failing for target `c0`,
    the two-target run aborts at `c0`: `c0` is not marked completed, the
    error is counted, the checkpoint is flushed, and `c1` is never
    processed. -/
theorem C6_amended_witness :
    ∃ stF, applyResults behSelFail ((List.range 2).map wCompany) saveAll 5 st0
        [wOkResult 0, wOkResult 1] = .error stF ∧
      stF.completed = st0.completed ∧ stF.errors = 1 ∧ stF.disk = some (cpOf stF) := by
  have hfatal : processOne behSelFail ((List.range 2).map wCompany) saveAll 5 st0
      (wOkResult 0)
      = .error (finalSt (processOne behSelFail ((List.range 2).map wCompany)
          saveAll 5 st0 (wOkResult 0))) := rfl
  obtain ⟨h1, h2, h3, h4, -⟩ :=
    C6_amended behSelFail ((List.range 2).map wCompany) saveAll 5 st0 _
      (wOkResult 0) (fun _ => rfl) hfatal
  exact ⟨_, h1 [wOkResult 1], h2, by rw [h3]; rfl, h4⟩

/-- C7: on a resume invocation with an existing checkpoint, the
    already-processed target ids are subtracted from the (filtered, limited)
    target list before any fetching, and the running totals and run id are
    seeded from the checkpoint rather than from zero. -/
theorem C7_resume_subtracts (cp : Checkpoint) (companies0 : List Company)
    (cf : Option String) (lim : Option Nat) (p : PrepSt)
    (h : prepareRun true false (some cp) companies0 cf lim = some p) :
    p.remaining = p.companies.filter
      (fun c => !(cp.completed_ids.contains c.id)) ∧
    p.completed = cp.completed_ids ∧
    p.run_id = cp.run_id ∧
    p.prev_total = cp.total_jobs ∧
    p.prev_new = cp.new_jobs ∧
    p.prev_errors = cp.errors := by
  unfold prepareRun at h
  simp only [Bool.not_false, Bool.and_self, if_true, Option.map_some,
    Option.getD_some, Option.some_bind] at h
  split at h
  · exact absurd h (by simp)
  · cases h
    simp

/-- C7 witness: 25 targets, a checkpoint recording 10 of them as completed
    and totals (40, 7, 2): resume processes exactly the remaining 15 targets
    and seeds the totals from the checkpoint. -/
theorem C7_witness :
    ∃ p, prepareRun true false (some wCheckpoint) wCompanies none none = some p ∧
      p.remaining = p.companies.filter
        (fun c => !(wCheckpoint.completed_ids.contains c.id)) ∧
      p.remaining.length = 15 ∧
      p.prev_total = 40 ∧ p.prev_new = 7 ∧ p.prev_errors = 2 := by
  have h : prepareRun true false (some wCheckpoint) wCompanies none none
      = some ((prepareRun true false (some wCheckpoint) wCompanies none none).getD
          ⟨[], [], [], none, 0, 0, 0, none⟩) := rfl
  obtain ⟨h1, -, -, h4, h5, h6⟩ := C7_resume_subtracts wCheckpoint wCompanies none none _ h
  exact ⟨_, h, h1, by rw [h1]; decide, by rw [h4]; rfl, by rw [h5]; rfl, by rw [h6]; rfl⟩

/-! Helper lemmas for C10: the loop core is independent of checkpoint-write
    outcomes. -/

theorem coreOf_save (o : Nat → Bool) (s : LoopSt) :
    coreOf (save_checkpoint o s) = coreOf { s with saveIdx := s.saveIdx + 1 } := by
  unfold save_checkpoint
  split <;> rfl

theorem processOne_core (beh : String → Nat → StoreBehavior)
    (remaining : List Company) (o1 o2 : Nat → Bool) (now : Nat)
    (st1 st2 : LoopSt) (r : ScrapeResult) (h : coreOf st1 = coreOf st2) :
    coreRel (processOne beh remaining o1 now st1 r)
            (processOne beh remaining o2 now st2 r) := by
  obtain ⟨d1, c1, t1, n1, e1, w1, r1, y1, i1, k1, v1⟩ := st1
  obtain ⟨d2, c2, t2, n2, e2, w2, r2, y2, i2, k2, v2⟩ := st2
  simp only [coreOf, LoopCore.mk.injEq] at h
  obtain ⟨h1, h2, h3, h4, h5, h6, h7, h8, h9⟩ := h
  subst h1 h2 h3 h4 h5 h6 h7 h8 h9
  unfold processOne
  dsimp only
  split
  · simp [coreRel, coreOf]
  split
  · simp [coreRel, coreOf]
  split
  · simp [coreRel, coreOf]
  split
  · split
    · show coreOf _ = coreOf _
      rw [coreOf_save, coreOf_save]
      rfl
    · simp [coreRel, coreOf]
  · show coreOf _ = coreOf _
    rw [coreOf_save, coreOf_save]
    rfl

theorem applyResults_core (beh : String → Nat → StoreBehavior)
    (remaining : List Company) (o1 o2 : Nat → Bool) (now : Nat)
    (st1 st2 : LoopSt) (rs : List ScrapeResult) (h : coreOf st1 = coreOf st2) :
    coreRel (applyResults beh remaining o1 now st1 rs)
            (applyResults beh remaining o2 now st2 rs) := by
  induction rs generalizing st1 st2 with
  | nil => exact h
  | cons r rest ih =>
    have hp := processOne_core beh remaining o1 o2 now st1 st2 r h
    unfold applyResults
    rcases e1 : processOne beh remaining o1 now st1 r with a1 | a1 <;>
      rcases e2 : processOne beh remaining o2 now st2 r with a2 | a2 <;>
      rw [e1, e2] at hp <;> simp only [coreRel] at hp <;>
      first
      | exact absurd hp (by simp [coreRel])
      | skip
    · exact hp
    · exact ih a1 a2 hp

theorem processOne_disk_of_failed_saves (beh : String → Nat → StoreBehavior)
    (remaining : List Company) (now : Nat) (st : LoopSt) (r : ScrapeResult) :
    (finalSt (processOne beh remaining (fun _ => false) now st r)).disk = st.disk := by
  unfold processOne
  dsimp only
  split
  · simp [finalSt]
  split
  · simp [finalSt]
  split
  · simp [finalSt]
  split
  · split
    · simp [finalSt, save_checkpoint]
    · simp [finalSt]
  · simp [finalSt, save_checkpoint]

/-- C10: a checkpoint-write failure never aborts or alters the run: for any
    two OS-failure patterns the run takes the same branches and ends with
    the same table, counters, completed set and abort status — everything
    except the on-disk checkpoint; and if every write fails the on-disk
    checkpoint simply stays what it was (it lags; nothing is enforced). -/
theorem C10_save_failure_harmless (beh : String → Nat → StoreBehavior)
    (remaining : List Company) (now : Nat) (st : LoopSt)
    (rs : List ScrapeResult) (o1 o2 : Nat → Bool) :
    coreRel (applyResults beh remaining o1 now st rs)
            (applyResults beh remaining o2 now st rs) ∧
    (finalSt (applyResults beh remaining (fun _ => false) now st rs)).disk = st.disk := by
  constructor
  · exact applyResults_core beh remaining o1 o2 now st st rs rfl
  · induction rs generalizing st with
    | nil => simp [applyResults, finalSt]
    | cons r rest ih =>
      unfold applyResults
      rcases e : processOne beh remaining (fun _ => false) now st r with a | a
      · have hd := processOne_disk_of_failed_saves beh remaining now st r
        rw [e] at hd
        simpa [finalSt] using hd
      · have hd := processOne_disk_of_failed_saves beh remaining now st r
        rw [e] at hd
        simp only [finalSt] at hd
        rw [← hd]
        exact ih a

/-- C8: the store-operation retry wrapper makes up to 3 tries: after a
    failure whose lowercased message matches one of the five fixed
    connection-fault signatures it sleeps `delay * attempt` (linearly
    increasing) and forces the client counter to the reset threshold, so the
    next `get_client` rebuilds the client; a failure that matches no
    signature propagates immediately with no sleep and no reset. -/
theorem C8_retry_policy {α : Type} (op : Nat → Except (List Char) α) (d : Nat) :
    (∀ v, op 0 = .ok v → _retry op 3 d = ⟨.ok v, 1, [], 0⟩) ∧
    (∀ e, op 0 = .error e → is_connection_error e = false →
      _retry op 3 d = ⟨.error e, 1, [], 0⟩) ∧
    (∀ e v, op 0 = .error e → is_connection_error e = true → op 1 = .ok v →
      _retry op 3 d = ⟨.ok v, 2, [d * 1], 1⟩) ∧
    (∀ e e', op 0 = .error e → is_connection_error e = true →
      op 1 = .error e' → is_connection_error e' = false →
      _retry op 3 d = ⟨.error e', 2, [d * 1], 1⟩) ∧
    (∀ e e', op 0 = .error e → is_connection_error e = true →
      op 1 = .error e' → is_connection_error e' = true →
      _retry op 3 d = ⟨op 2, 3, [d * 1, d * 2], 2⟩) ∧
    (∀ st : ClientState, st.envOk = true →
      MAX_REQUESTS_BEFORE_RESET ≤ st.request_count →
      get_client st = .ok (st.nextGen,
        { client := some st.nextGen, request_count := 1,
          nextGen := st.nextGen + 1, envOk := st.envOk })) := by
  refine ⟨fun v h0 => ?_, fun e h0 hc => ?_, fun e v h0 hc h1 => ?_,
          fun e e' h0 hc h1 hc' => ?_, fun e e' h0 hc h1 hc' => ?_,
          fun st he hm => ?_⟩
  · simp [_retry, retryAux, h0]
  · simp [_retry, retryAux, h0, hc]
  · simp [_retry, retryAux, h0, hc, h1]
  · simp [_retry, retryAux, h0, hc, h1, hc']
  · rcases h2 : op 2 with v2 | e2 <;>
      simp [_retry, retryAux, h0, hc, h1, hc', h2]
  · unfold get_client
    rw [if_pos, if_pos he]
    simp [hm, decide_eq_true_eq]

/-- C8 witness: a connection-reset failure followed by a success is retried
    once with a 1-second sleep and one forced client reset; and a client
    state at the reset threshold gets a fresh client from `get_client`. -/
theorem C8_witness :
    _retry (fun i => if i == 0
        then .error "connectionreset by peer".data
        else .ok 42) 3 1
      = ⟨.ok 42, 2, [1 * 1], 1⟩ ∧
    get_client ⟨some 3, MAX_REQUESTS_BEFORE_RESET, 4, true⟩
      = .ok (4, ⟨some 4, 1, 5, true⟩) := by
  obtain ⟨-, -, h3, -, -, h6⟩ :=
    C8_retry_policy (fun i => if i == 0
      then .error "connectionreset by peer".data
      else .ok (42 : Nat)) 1
  exact ⟨h3 _ 42 rfl (by decide) rfl,
         h6 ⟨some 3, MAX_REQUESTS_BEFORE_RESET, 4, true⟩ rfl (by decide)⟩

/-! Helper lemmas for C1. -/

theorem url_hash_updateRowOf (r : JobRow) (a : JobArgs) (m : Nat) :
    (updateRowOf r a m).url_hash = r.url_hash := rfl

theorem id_updateRowOf (r : JobRow) (a : JobArgs) (m : Nat) :
    (updateRowOf r a m).id = r.id := rfl

theorem id_insertRowOf (a : JobArgs) (uh : String) (i n : Nat) :
    (insertRowOf a uh i n).id = i := rfl

theorem updateRowOf_updateRowOf (r : JobRow) (a : JobArgs) (m m' : Nat) :
    updateRowOf (updateRowOf r a m) a m' = updateRowOf r a m' := by
  unfold updateRowOf
  by_cases h1 : truthyS a.company_id <;>
    by_cases h2 : a.salary_min.isSome <;>
    by_cases h3 : a.salary_max.isSome <;>
    simp [h1, h2, h3]

theorem updateRowOf_insertRowOf_self (a : JobArgs) (uh : String) (i n : Nat) :
    updateRowOf (insertRowOf a uh i n) a n = insertRowOf a uh i n := by
  unfold updateRowOf insertRowOf
  by_cases h1 : truthyS a.company_id <;> simp [h1]

theorem filter_no_hash (rows : List JobRow) (uh : String)
    (hfresh : ∀ r ∈ rows, r.url_hash ≠ uh) :
    rows.filter (fun r => r.url_hash == uh) = [] := by
  rw [List.filter_eq_nil_iff]
  intro r hr
  simp [hfresh r hr]

theorem map_eq_self_of_eq {α : Type} (l : List α) (f : α → α)
    (h : ∀ x ∈ l, f x = x) : l.map f = l := by
  induction l with
  | nil => rfl
  | cons x xs ih =>
    simp only [List.map_cons, h x (by simp)]
    rw [ih (fun y hy => h y (by simp [hy]))]

/-- C1: starting from a table with no record for the canonical record's
    identity key, applying the record through `upsert_job` `N ≥ 1` times
    yields exactly one stored record for that key, appended to the table:
    the first application inserts it with `first_seen = last_seen = t 0`,
    `is_active = true` and reports `is_new = true`; every later application
    only refreshes `last_seen`, `is_active` and the mutable fields
    (company reference and salary range) — leaving `first_seen` and the
    original (stripped) title and url untouched — and reports
    `is_new = false`. -/
theorem C1_upsert_repeated_application (a : JobArgs) (t : Nat → Nat)
    (db : JobsDB) (N : Nat) (uh : String)
    (hN : 1 ≤ N)
    (hhash : hash_url a.url = .ok uh)
    (hfresh : ∀ r ∈ db.rows, r.url_hash ≠ uh)
    (hid : ∀ r ∈ db.rows, r.id ≠ db.nextId) :
    upsertN allOk a t db N
      = .ok ({ rows := db.rows ++
                 [updateRowOf (insertRowOf a uh db.nextId (t 0)) a (t (N - 1))],
               nextId := db.nextId + 1 },
             true :: List.replicate (N - 1) false) ∧
    (db.rows ++
        [updateRowOf (insertRowOf a uh db.nextId (t 0)) a (t (N - 1))]).filter
        (fun r => r.url_hash == uh)
      = [updateRowOf (insertRowOf a uh db.nextId (t 0)) a (t (N - 1))] ∧
    (updateRowOf (insertRowOf a uh db.nextId (t 0)) a (t (N - 1))).first_seen
      = t 0 ∧
    (updateRowOf (insertRowOf a uh db.nextId (t 0)) a (t (N - 1))).last_seen
      = t (N - 1) ∧
    (updateRowOf (insertRowOf a uh db.nextId (t 0)) a (t (N - 1))).title
      = pyStripS a.title ∧
    (updateRowOf (insertRowOf a uh db.nextId (t 0)) a (t (N - 1))).url
      = pyStripS a.url ∧
    (updateRowOf (insertRowOf a uh db.nextId (t 0)) a (t (N - 1))).is_active
      = true := by
  have hsingle : ∀ m, (db.rows ++
      [updateRowOf (insertRowOf a uh db.nextId (t 0)) a m]).filter
        (fun r => r.url_hash == uh)
      = [updateRowOf (insertRowOf a uh db.nextId (t 0)) a m] := by
    intro m
    rw [List.filter_append, filter_no_hash db.rows uh hfresh]
    simp [url_hash_updateRowOf, insertRowOf]
  refine ⟨?_, hsingle (t (N - 1)), rfl, rfl, rfl, rfl, rfl⟩
  induction N, hN using Nat.le_induction with
  | base =>
    have step : upsertN allOk a t db 1
        = (upsert_job allOk db a (t 0)).bind
            (fun q => .ok (q.1, ([] : List Bool) ++ [q.2.2])) := rfl
    rw [step]
    simp only [upsert_job, hhash, filter_no_hash db.rows uh hfresh, allOk,
      Bool.not_true, Bool.false_eq_true, if_false, if_true, Except.bind]
    simp [Nat.sub_self, updateRowOf_insertRowOf_self]
  | succ n hn ih =>
    have step : upsertN allOk a t db (n + 1)
        = (upsertN allOk a t db n).bind (fun p =>
            (upsert_job allOk p.1 a (t n)).bind
              (fun q => .ok (q.1, p.2 ++ [q.2.2]))) := rfl
    rw [step, ih]
    have hmap : (db.rows ++
        [updateRowOf (insertRowOf a uh db.nextId (t 0)) a (t (n - 1))]).map
          (fun r => if r.id
              == (updateRowOf (insertRowOf a uh db.nextId (t 0)) a (t (n - 1))).id
            then updateRowOf r a (t n) else r)
        = db.rows ++
          [updateRowOf (insertRowOf a uh db.nextId (t 0)) a (t n)] := by
      rw [List.map_append]
      congr 1
      · apply map_eq_self_of_eq
        intro r hr
        rw [id_updateRowOf, id_insertRowOf]
        simp [hid r hr]
      · simp [id_updateRowOf, updateRowOf_updateRowOf]
    have hrep : (true :: List.replicate (n - 1) false) ++ [false]
        = true :: List.replicate n false := by
      rcases n with - | m
      · omega
      · simp [List.replicate_succ']
    simp only [Except.bind, upsert_job, hhash, allOk, Bool.not_true,
      Bool.false_eq_true, if_false, if_true, hsingle (t (n - 1)), hmap]
    simp only [List.cons_append, List.nil_append, hrep, Nat.add_sub_cancel]

/-- C1 witness: three applications of a concrete record to an empty table
    produce `is_new` flags `[true, false, false]` and a single stored row
    with `first_seen = 100`, `last_seen = 102`. -/
theorem C1_witness :
    ∃ uh, hash_url wArgs.url = .ok uh ∧
      upsertN allOk wArgs (fun i => 100 + i) ⟨[], 7⟩ 3
        = .ok ({ rows := [updateRowOf (insertRowOf wArgs uh 7 100) wArgs 102],
                 nextId := 8 },
               [true, false, false]) := by
  refine ⟨_, rfl, ?_⟩
  have h := C1_upsert_repeated_application wArgs (fun i => 100 + i) ⟨[], 7⟩ 3 _
    (by omega) rfl (by simp) (by simp)
  simpa using h.1

/-! Toolkit for the URL-normalization claims: character classes, lowercasing,
    and computation lemmas for the `urlsplit` model. -/

theorem toLowerA_cases (c : Char) :
    toLowerA c = c ∨ toLowerA c ∈ ['a', 'b', 'c', 'd', 'e', 'f', 'g', 'h', 'i',
      'j', 'k', 'l', 'm', 'n', 'o', 'p', 'q', 'r', 's', 't', 'u', 'v', 'w',
      'x', 'y', 'z'] := by
  unfold toLowerA
  split <;> simp

theorem toLowerA_of_lower (c : Char)
    (h : c ∈ ['a', 'b', 'c', 'd', 'e', 'f', 'g', 'h', 'i', 'j', 'k', 'l', 'm',
      'n', 'o', 'p', 'q', 'r', 's', 't', 'u', 'v', 'w', 'x', 'y', 'z']) :
    toLowerA c = c := by
  fin_cases h <;> rfl

theorem toLowerA_toLowerA (c : Char) : toLowerA (toLowerA c) = toLowerA c := by
  rcases toLowerA_cases c with h | h
  · rw [h, h]
  · exact toLowerA_of_lower _ h

theorem map_toLowerA_idem (l : List Char) :
    (l.map toLowerA).map toLowerA = l.map toLowerA := by
  rw [List.map_map]
  exact List.map_congr_left (fun c _ => toLowerA_toLowerA c)

theorem eq_of_toLowerA_eq_special (c d : Char)
    (hd : d ∉ ['a', 'b', 'c', 'd', 'e', 'f', 'g', 'h', 'i', 'j', 'k', 'l', 'm',
      'n', 'o', 'p', 'q', 'r', 's', 't', 'u', 'v', 'w', 'x', 'y', 'z'])
    (h : toLowerA c = d) : c = d := by
  rcases toLowerA_cases c with h' | h'
  · rw [← h', h]
  · rw [h] at h'
    exact absurd h' hd

theorem isSchemeChar_toLowerA (c : Char) (h : isSchemeChar c = true) :
    isSchemeChar (toLowerA c) = true := by
  unfold toLowerA
  split <;> first | rfl | exact h

theorem isAlpha_toLowerA (c : Char) (h : c.isAlpha = true) :
    (toLowerA c).isAlpha = true := by
  unfold toLowerA
  split <;> first | rfl | exact h

theorem schemeChar_not_c0 (c : Char) (h : isSchemeChar c = true) :
    (decide (c.toNat ≤ 0x20)) = false := by
  simp only [isSchemeChar, Char.isAlpha, Char.isUpper, Char.isLower,
    Char.isDigit, Bool.or_eq_true, Bool.and_eq_true, decide_eq_true_eq,
    beq_iff_eq] at h
  simp only [decide_eq_false_iff_not, not_le, Char.toNat]
  rcases h with ((((⟨h1, -⟩ | ⟨h1, -⟩) | ⟨h1, -⟩) | h1) | h1) | h1
  · have h2 : (65 : UInt32).toNat ≤ c.val.toNat := h1
    have h3 : (65 : UInt32).toNat = 65 := rfl
    omega
  · have h2 : (97 : UInt32).toNat ≤ c.val.toNat := h1
    have h3 : (97 : UInt32).toNat = 97 := rfl
    omega
  · have h2 : (48 : UInt32).toNat ≤ c.val.toNat := h1
    have h3 : (48 : UInt32).toNat = 48 := rfl
    omega
  · subst h1; decide
  · subst h1; decide
  · subst h1; decide

theorem schemeChar_ne (c : Char) (h : isSchemeChar c = true) (d : Char)
    (hd : isSchemeChar d = false) : c ≠ d := by
  intro he
  subst he
  rw [h] at hd
  cases hd

theorem schemeChar_not_tab (c : Char) (h : isSchemeChar c = true) :
    isTabNl c = false := by
  rcases ht : isTabNl c with - | -
  · rfl
  · exfalso
    simp only [isTabNl, Bool.or_eq_true, beq_iff_eq] at ht
    rcases ht with (h1 | h1) | h1 <;> subst h1 <;> exact absurd h (by decide)

theorem goodScheme_facts (s : List Char) (hs : goodSchemeB s = true) :
    s ≠ [] ∧ (∀ c ∈ s, isSchemeChar c = true) ∧
    (∃ c t, s = c :: t ∧ c.isAlpha = true) := by
  rcases s with - | ⟨c, t⟩
  · simp [goodSchemeB] at hs
  · simp only [goodSchemeB, Bool.and_eq_true, List.all_eq_true] at hs
    exact ⟨by simp, fun d hd => hs.2 d hd, c, t, rfl, hs.1⟩

theorem goodHost_facts (h : List Char) (hh : goodHostB h = true) :
    ∀ c ∈ h, c ≠ '/' ∧ c ≠ '?' ∧ c ≠ '#' ∧ c ≠ '@' ∧ c ≠ ':' ∧ c ≠ '[' ∧
      c ≠ ']' ∧ isTabNl c = false ∧ isSpaceA c = false ∧
      (decide (c.toNat ≤ 0x20)) = false ∧ isNetlocDelim c = false := by
  intro c hc
  simp only [goodHostB, List.all_eq_true] at hh
  have h1 := hh c hc
  simp only [Bool.or_eq_true, Bool.not_eq_true', Bool.or_eq_false_iff,
    beq_eq_false_iff_ne, ne_eq, decide_eq_false_iff_not] at h1
  obtain ⟨⟨⟨⟨⟨⟨⟨hs1, hs2⟩, hs3⟩, hs4⟩, hs5⟩, hs6⟩, hs7⟩, hc0⟩ := h1
  refine ⟨hs1, hs2, hs3, hs4, hs5, hs6, hs7, ?_, ?_, by simpa using hc0, ?_⟩
  · rcases ht : isTabNl c with - | -
    · rfl
    · exfalso
      simp only [isTabNl, Bool.or_eq_true, beq_iff_eq] at ht
      rcases ht with (h1 | h1) | h1 <;> subst h1 <;> exact hc0 (by decide)
  · rcases ht : isSpaceA c with - | -
    · rfl
    · exfalso
      simp only [isSpaceA, Bool.or_eq_true, beq_iff_eq] at ht
      rcases ht with ((((h1 | h1) | h1) | h1) | h1) | h1 <;> subst h1 <;>
        exact hc0 (by decide)
  · simp [isNetlocDelim, hs1, hs2, hs3]

theorem goodPath_facts (p : List Char) (hp : goodPathB p = true) :
    (p = [] ∨ ∃ t, p = '/' :: t) ∧
    (∀ c ∈ p, c ≠ '?' ∧ c ≠ '#' ∧ c ≠ ';' ∧ isTabNl c = false) ∧
    (∀ c, p.getLast? = some c → isSpaceA c = false) := by
  simp only [goodPathB, Bool.and_eq_true, List.all_eq_true, Bool.or_eq_true] at hp
  obtain ⟨⟨h1, h2⟩, h3⟩ := hp
  refine ⟨?_, ?_, ?_⟩
  · rcases p with - | ⟨c, t⟩
    · exact Or.inl rfl
    · right
      rcases h1 with h1 | h1
      · simp at h1
      · simp only [List.headD_cons, beq_iff_eq] at h1
        exact ⟨t, by rw [h1]⟩
  · intro c hc
    have := h2 c hc
    simp only [Bool.not_eq_true', Bool.or_eq_false_iff, beq_eq_false_iff_ne,
      ne_eq] at this
    exact ⟨this.1.1.1, this.1.1.2, this.1.2, this.2⟩
  · intro c hc
    rcases h3 with h3 | h3
    · simp only [List.isEmpty_eq_true] at h3
      rw [h3] at hc
      simp at hc
    · have : p.getLastD ' ' = c := by
        rw [List.getLastD_eq_getLast?, hc]
        rfl
      rw [← this]
      simpa using h3

/-! Split and strip computation lemmas. -/

theorem splitOnFirst_none (c : Char) (l : List Char) (h : c ∉ l) :
    splitOnFirst c l = none := by
  induction l with
  | nil => rfl
  | cons a t ih =>
    have ha : (a == c) = false := by
      simp only [beq_eq_false_iff_ne, ne_eq]
      rintro rfl
      exact h (by simp)
    simp only [splitOnFirst, ha, Bool.false_eq_true, if_false,
      ih (fun hm => h (by simp [hm])), Option.map_none']

theorem splitOnFirst_marker (c : Char) (a b : List Char) (h : c ∉ a) :
    splitOnFirst c (a ++ c :: b) = some (a, b) := by
  induction a with
  | nil => simp [splitOnFirst]
  | cons x t ih =>
    have hx : (x == c) = false := by
      simp only [beq_eq_false_iff_ne, ne_eq]
      rintro rfl
      exact h (by simp)
    simp only [List.cons_append, splitOnFirst, hx, Bool.false_eq_true,
      if_false, List.append_eq, ih (fun hm => h (by simp [hm])), Option.map_some']

theorem splitDef_none (c : Char) (l : List Char) (h : c ∉ l) :
    splitDef c l = (l, []) := by
  unfold splitDef
  rw [splitOnFirst_none c l h]

theorem splitDef_marker (c : Char) (a b : List Char) (h : c ∉ a) :
    splitDef c (a ++ c :: b) = (a, b) := by
  unfold splitDef
  rw [splitOnFirst_marker c a b h]

theorem splitDef_append_fst (c : Char) (a b : List Char) (h : c ∉ a) :
    (splitDef c (a ++ b)).1 = a ++ (splitDef c b).1 := by
  induction a with
  | nil => simp
  | cons x t ih =>
    have hx : (x == c) = false := by
      simp only [beq_eq_false_iff_ne, ne_eq]
      rintro rfl
      exact h (by simp)
    have iht := ih (fun hm => h (by simp [hm]))
    unfold splitDef at iht ⊢
    simp only [List.cons_append, splitOnFirst, hx, Bool.false_eq_true, if_false,
      List.append_eq]
    rcases hs : splitOnFirst c (t ++ b) with - | p
    · rw [hs] at iht
      simp only [Option.map_none']
      simpa using iht
    · rw [hs] at iht
      simp only [Option.map_some']
      simpa using iht

theorem takeWhile_all (p : Char → Bool) (l : List Char)
    (h : ∀ x ∈ l, p x = true) : l.takeWhile p = l := by
  induction l with
  | nil => rfl
  | cons x t ih =>
    simp only [List.takeWhile_cons, h x (by simp), if_true]
    rw [ih (fun y hy => h y (by simp [hy]))]

theorem dropWhile_head_false (p : Char → Bool) (l : List Char)
    (h : ∀ c, l.head? = some c → p c = false) : l.dropWhile p = l := by
  rcases l with - | ⟨x, t⟩
  · rfl
  · simp [List.dropWhile_cons, h x rfl]

theorem dropWhile_head_prop (p : Char → Bool) (l : List Char) (c : Char)
    (h : (l.dropWhile p).head? = some c) : p c = false := by
  induction l with
  | nil => simp at h
  | cons x t ih =>
    rw [List.dropWhile_cons] at h
    split at h
    · exact ih h
    · rename_i hx
      simp only [List.head?_cons, Option.some.injEq] at h
      subst h
      simpa using hx

theorem dropWhile_append_right (p : Char → Bool) (u v : List Char)
    (hv : ∀ c, v.head? = some c → p c = false) :
    (u ++ v).dropWhile p = u.dropWhile p ++ v := by
  induction u with
  | nil => simp [dropWhile_head_false p v hv]
  | cons x t ih =>
    simp only [List.cons_append, List.dropWhile_cons]
    split <;> simp [ih]

theorem takeWhile_append_stop (p : Char → Bool) (a b : List Char)
    (ha : ∀ x ∈ a, p x = true) (hb : ∀ c, b.head? = some c → p c = false) :
    (a ++ b).takeWhile p = a ∧ (a ++ b).dropWhile p = b := by
  induction a with
  | nil =>
    refine ⟨?_, dropWhile_head_false p b hb⟩
    rcases b with - | ⟨x, t⟩
    · rfl
    · simp [List.takeWhile_cons, hb x rfl]
  | cons x t ih =>
    obtain ⟨ih1, ih2⟩ := ih (fun y hy => ha y (by simp [hy]))
    simp [List.takeWhile_cons, List.dropWhile_cons, ha x (by simp), ih1, ih2]

theorem pyStrip_eq_self (l : List Char)
    (h1 : ∀ c, l.head? = some c → isSpaceA c = false)
    (h2 : ∀ c, l.getLast? = some c → isSpaceA c = false) : pyStrip l = l := by
  unfold pyStrip
  rw [dropWhile_head_false _ _ h1, dropWhile_head_false, List.reverse_reverse]
  intro c hc
  rw [List.head?_reverse] at hc
  exact h2 c hc

theorem pyStrip_query (x q : List Char)
    (hx : ∀ c, (x ++ '?' :: q).head? = some c → isSpaceA c = false) :
    ∃ q', pyStrip (x ++ '?' :: q) = x ++ '?' :: q' := by
  refine ⟨((q.reverse.dropWhile isSpaceA).reverse : List Char), ?_⟩
  unfold pyStrip
  rw [dropWhile_head_false _ _ hx]
  have hrev : (x ++ '?' :: q).reverse = q.reverse ++ '?' :: x.reverse := by
    simp
  rw [hrev, dropWhile_append_right _ _ _ (by rintro c rfl1; cases rfl1; rfl)]
  simp

theorem rstripSlash_append_slash (p : List Char) :
    rstripSlash (p ++ ['/']) = rstripSlash p := by
  unfold rstripSlash
  simp [List.dropWhile_cons]

theorem rstripSlash_no_slash (p : List Char)
    (h : ∀ c, p.getLast? = some c → c ≠ '/') : rstripSlash p = p := by
  unfold rstripSlash
  rw [dropWhile_head_false, List.reverse_reverse]
  intro c hc
  rw [List.head?_reverse] at hc
  simpa [beq_eq_false_iff_ne] using h c hc

theorem rstripSlash_getLast (p : List Char) (c : Char)
    (h : (rstripSlash p).getLast? = some c) : c ≠ '/' := by
  unfold rstripSlash at h
  rw [List.getLast?_reverse] at h
  have := dropWhile_head_prop _ _ _ h
  simpa [beq_eq_false_iff_ne] using this

theorem rstripSlash_idem (p : List Char) :
    rstripSlash (rstripSlash p) = rstripSlash p :=
  rstripSlash_no_slash _ (rstripSlash_getLast p)

theorem removeTabNl_eq_self (l : List Char)
    (h : ∀ c ∈ l, isTabNl c = false) : removeTabNl l = l := by
  unfold removeTabNl
  rw [List.filter_eq_self]
  intro a ha
  simp [h a ha]

theorem lstripC0_cons (c : Char) (l : List Char)
    (h : (decide (c.toNat ≤ 0x20)) = false) : lstripC0 (c :: l) = c :: l := by
  unfold lstripC0
  simp [List.dropWhile_cons, h]

/-! Inversion lemmas for the split primitives. -/

theorem splitOnFirst_eq (c : Char) (l : List Char) :
    ∀ a b, splitOnFirst c l = some (a, b) → l = a ++ c :: b ∧ c ∉ a := by
  induction l with
  | nil => intro a b h; simp [splitOnFirst] at h
  | cons x t ih =>
    intro a b h
    simp only [splitOnFirst] at h
    split at h
    · rename_i hx
      rw [beq_iff_eq] at hx
      subst hx
      simp only [Option.some.injEq, Prod.mk.injEq] at h
      obtain ⟨h1, h2⟩ := h
      subst h1
      subst h2
      simp
    · rename_i hx
      rcases hs : splitOnFirst c t with - | ⟨p1, p2⟩
      · rw [hs] at h
        simp at h
      · rw [hs] at h
        simp only [Option.map_some', Option.some.injEq, Prod.mk.injEq] at h
        obtain ⟨h1, h2⟩ := h
        subst h2
        obtain ⟨g1, g2⟩ := ih p1 p2 hs
        rw [← h1, g1]
        refine ⟨by simp, ?_⟩
        simp only [List.mem_cons, not_or]
        exact ⟨fun he => hx (by simp [he.symm]), g2⟩

theorem splitOnFirst_not_mem (c : Char) (l : List Char)
    (h : splitOnFirst c l = none) : c ∉ l := by
  induction l with
  | nil => simp
  | cons x t ih =>
    simp only [splitOnFirst] at h
    split at h
    · simp at h
    · rename_i hx
      rcases hs : splitOnFirst c t with - | p
      · simp only [List.mem_cons, not_or]
        exact ⟨fun he => hx (by simp [he.symm]), ih hs⟩
      · rw [hs] at h
        simp at h

theorem splitDef_fst_decomp (k : Char) (l : List Char) :
    (l = (splitDef k l).1 ++ k :: (splitDef k l).2 ∨
      ((splitDef k l).1 = l ∧ (splitDef k l).2 = [])) ∧
    k ∉ (splitDef k l).1 := by
  unfold splitDef
  rcases hs : splitOnFirst k l with - | p
  · exact ⟨Or.inr ⟨rfl, rfl⟩, splitOnFirst_not_mem k l hs⟩
  · obtain ⟨h1, h2⟩ := splitOnFirst_eq k l p.1 p.2 (by rw [hs])
    exact ⟨Or.inl h1, h2⟩

theorem splitDef_fst_subset (k : Char) (l : List Char) :
    ∀ c ∈ (splitDef k l).1, c ∈ l := by
  intro c hc
  rcases (splitDef_fst_decomp k l).1 with h | ⟨h, -⟩
  · rw [h]
    simp [hc]
  · rw [← h]
    exact hc

theorem splitDef_fst_head (k : Char) (l : List Char)
    (h : (splitDef k l).1 ≠ []) :
    (splitDef k l).fst.head? = l.head? := by
  rcases (splitDef_fst_decomp k l).1 with hd | ⟨hd, -⟩
  · conv_rhs => rw [hd]
    rcases he : (splitDef k l).1 with - | ⟨x, t⟩
    · exact absurd he h
    · simp
  · rw [hd]

/-- `splitScheme` either finds no scheme and returns the input unchanged, or
    returns a lowercased valid scheme and the remainder after the colon. -/
theorem splitScheme_spec (l : List Char) :
    ((splitScheme l).1 = [] ∧ (splitScheme l).2 = l) ∨
    (∃ pre, (splitScheme l).1 = pre.map toLowerA ∧
      l = pre ++ ':' :: (splitScheme l).2 ∧
      goodSchemeB pre = true) := by
  unfold splitScheme
  rcases hs : splitOnFirst ':' l with - | ⟨pre, post⟩
  · exact Or.inl ⟨by simp, by simp⟩
  · obtain ⟨h1, -⟩ := splitOnFirst_eq ':' l pre post hs
    rcases pre with _ | ⟨c, t⟩
    · exact Or.inl ⟨by simp, by simp⟩
    · rcases hv : (c.isAlpha && (c :: t).all isSchemeChar) with - | -
      · simp only [hv, Bool.false_eq_true, if_false]
        exact Or.inl ⟨by simp, by simp⟩
      · simp only [hv, if_true]
        exact Or.inr ⟨c :: t, rfl, h1, hv⟩


/-! Forward computation lemmas for `urlsplit` on well-formed inputs. -/

theorem not_contains_of (l : List Char) (c : Char) (h : c ∉ l) :
    l.contains c = false := by
  rcases hc : l.contains c with - | -
  · rfl
  · exact absurd (List.mem_of_elem_eq_true hc) h

theorem schemeChar_not_space (c : Char) (h : isSchemeChar c = true) :
    isSpaceA c = false := by
  rcases ht : isSpaceA c with - | -
  · rfl
  · exfalso
    simp only [isSpaceA, Bool.or_eq_true, beq_iff_eq] at ht
    rcases ht with ((((h1 | h1) | h1) | h1) | h1) | h1 <;> subst h1 <;>
      exact absurd h (by decide)

theorem splitScheme_valid (s rest : List Char) (hs : goodSchemeB s = true) :
    splitScheme (s ++ ':' :: rest) = (s.map toLowerA, rest) := by
  obtain ⟨hne, hall, c, t, hct, halpha⟩ := goodScheme_facts s hs
  have hcolon : ':' ∉ s := fun hm => absurd (hall ':' hm) (by decide)
  unfold splitScheme
  rw [splitOnFirst_marker ':' s rest hcolon]
  subst hct
  simp [halpha, List.all_eq_true.mpr hall]

theorem urlsplit_authority (s h tail : List Char)
    (hs : goodSchemeB s = true)
    (hh : ∀ c ∈ h, isNetlocDelim c = false ∧ c ≠ '[' ∧ c ≠ ']')
    (htail : ∀ c, tail.head? = some c → isNetlocDelim c = true)
    (hclean : removeTabNl (lstripC0 (s ++ ':' :: '/' :: '/' :: (h ++ tail)))
        = s ++ ':' :: '/' :: '/' :: (h ++ tail)) :
    urlsplitCore (s ++ ':' :: '/' :: '/' :: (h ++ tail))
      = .ok ⟨s.map toLowerA, h,
             (splitDef '?' (splitDef '#' tail).1).1,
             (splitDef '?' (splitDef '#' tail).1).2,
             (splitDef '#' tail).2⟩ := by
  have htk := takeWhile_append_stop (fun c => !(isNetlocDelim c)) h tail
    (fun x hx => by simp [(hh x hx).1]) (fun c hc => by simp [htail c hc])
  have hbr1 : h.contains '[' = false :=
    not_contains_of h '[' (fun hm => (hh '[' hm).2.1 rfl)
  have hbr2 : h.contains ']' = false :=
    not_contains_of h ']' (fun hm => (hh ']' hm).2.2 rfl)
  unfold urlsplitCore
  rw [hclean]
  dsimp only
  rw [splitScheme_valid s _ hs]
  simp only [List.take_succ_cons, List.take_zero, List.drop_succ_cons,
    List.drop_zero, beq_self_eq_true, if_true, htk.1, htk.2, hbr1, hbr2,
    Bool.false_and, Bool.and_false, Bool.or_self, Bool.false_eq_true, if_false]

theorem urlsplit_no_authority (s rest : List Char)
    (hs : goodSchemeB s = true)
    (hrest : (rest.take 2 == ['/', '/']) = false)
    (hclean : removeTabNl (lstripC0 (s ++ ':' :: rest)) = s ++ ':' :: rest) :
    urlsplitCore (s ++ ':' :: rest)
      = .ok ⟨s.map toLowerA, [],
             (splitDef '?' (splitDef '#' rest).1).1,
             (splitDef '?' (splitDef '#' rest).1).2,
             (splitDef '#' rest).2⟩ := by
  unfold urlsplitCore
  rw [hclean]
  dsimp only
  rw [splitScheme_valid s _ hs]
  simp only [hrest, Bool.false_eq_true, if_false, List.contains_nil,
    Bool.false_and, Bool.and_false, Bool.or_self]

theorem hostOf_good (h : List Char)
    (hh : ∀ c ∈ h, c ≠ '@' ∧ c ≠ ':' ∧ c ≠ '[') :
    hostOf h = h.map toLowerA := by
  unfold hostOf
  dsimp only
  have h1 : h.reverse.takeWhile (fun c => !(c == '@')) = h.reverse := by
    apply takeWhile_all
    intro x hx
    rw [List.mem_reverse] at hx
    simp [beq_eq_false_iff_ne, (hh x hx).1]
  rw [h1, List.reverse_reverse]
  have h2 : h.contains '[' = false :=
    not_contains_of h '[' (fun hm => (hh '[' hm).2.2 rfl)
  rw [h2]
  simp only [Bool.false_eq_true, if_false]
  have h3 : h.takeWhile (fun c => !(c == ':')) = h := by
    apply takeWhile_all
    intro x hx
    simp [beq_eq_false_iff_ne, (hh x hx).2.1]
  rw [h3]

theorem urlparse_no_params (u : List Char) (r : UrlSplit)
    (hok : urlsplitCore u = .ok r) (hsemi : r.path.contains ';' = false) :
    urlparseCore u = .ok r := by
  have step : urlparseCore u =
      (if usesParams.contains r.scheme && r.path.contains ';' then
        Except.ok { r with path := splitparams r.path }
      else Except.ok r) := by
    unfold urlparseCore
    rw [hok]
    rfl
  rw [step, hsemi]
  simp

theorem normParts_of_parse (u : List Char) (r : UrlSplit)
    (hok : urlparseCore (pyStrip u) = .ok r) :
    normParts u = .ok
      ((if r.scheme == [] then "https".data else r.scheme).map toLowerA,
       wwwStrip (hostOf r.netloc), rstripSlash r.path) := by
  unfold normParts
  rw [hok]
  rfl


theorem tabNl_false_of_space_false (c : Char) (h : isSpaceA c = false) :
    isTabNl c = false := by
  rcases ht : isTabNl c with - | -
  · rfl
  · exfalso
    simp only [isTabNl, Bool.or_eq_true, beq_iff_eq] at ht
    rcases ht with (h1 | h1) | h1 <;> subst h1 <;> exact absurd h (by decide)

theorem mem_of_getLast (l : List Char) (c : Char) (h : l.getLast? = some c) :
    c ∈ l := by
  obtain ⟨hne, he⟩ := @List.mem_getLast?_eq_getLast _ l c h
  rw [he]
  exact List.getLast_mem hne

/-- A URL of the shape `scheme:rest` with a valid scheme, a tab-free `rest`
    not ending in whitespace, survives both the outer `strip()` and the
    `urlsplit` input cleanup unchanged. -/
theorem pyStrip_clean_scheme (S r : List Char) (hS : goodSchemeB S = true)
    (hrt : ∀ c ∈ r, isTabNl c = false)
    (hrl : ∀ c, r.getLast? = some c → isSpaceA c = false) :
    pyStrip (S ++ ':' :: r) = S ++ ':' :: r ∧
    removeTabNl (lstripC0 (S ++ ':' :: r)) = S ++ ':' :: r := by
  obtain ⟨hne, hall, c, t, hct, halpha⟩ := goodScheme_facts S hS
  constructor
  · apply pyStrip_eq_self
    · intro d hd
      rw [List.head?_append_of_ne_nil _ hne, hct, List.head?_cons] at hd
      cases hd
      exact schemeChar_not_space c (hall c (by rw [hct]; exact List.mem_cons_self c t))
    · intro d hd
      rw [List.getLast?_append_cons] at hd
      rcases r with - | ⟨x, xs⟩
      · simp only [List.getLast?_singleton, Option.some.injEq] at hd
        subst hd
        rfl
      · rw [List.getLast?_cons_cons] at hd
        exact hrl d hd
  · rw [hct, List.cons_append, lstripC0_cons c _
      (schemeChar_not_c0 c (hall c (by rw [hct]; exact List.mem_cons_self c t))),
      ← List.cons_append, ← hct]
    apply removeTabNl_eq_self
    intro d hd
    rcases List.mem_append.mp hd with h1 | h1
    · exact schemeChar_not_tab d (hall d h1)
    · rcases List.mem_cons.mp h1 with h2 | h2
      · subst h2; rfl
      · exact hrt d h2

/-- Last-character analysis of the rendered tail: it never ends in
    whitespace. -/
theorem render_tail_last (h p sl ql : List Char)
    (hh : goodHostB h = true) (hp : goodPathB p = true)
    (hsl : sl = [] ∨ sl = ['/'])
    (hql : ql = [] ∨ ∃ qs, ql = '?' :: qs ∧
      ∀ c ∈ qs, c ≠ '#' ∧ isSpaceA c = false) :
    ∀ c, ('/' :: '/' :: (h ++ (p ++ (sl ++ ql)))).getLast? = some c →
      isSpaceA c = false := by
  intro d hd
  obtain ⟨hphead, hpchars, hplast⟩ := goodPath_facts p hp
  have hhf := goodHost_facts h hh
  rcases hql with rfl | ⟨qs, rfl, hqs⟩
  · rw [List.append_nil] at hd
    rcases hsl with rfl | rfl
    · rw [List.append_nil] at hd
      rcases hphead with rfl | ⟨pt, rfl⟩
      · rw [List.append_nil] at hd
        rcases h with - | ⟨y, ys⟩
        · rw [(show (['/', '/'] : List Char).getLast? = some '/' by decide)] at hd
          cases hd
          rfl
        · rw [List.getLast?_cons_cons, List.getLast?_cons_cons] at hd
          exact (hhf d (mem_of_getLast _ _ hd)).2.2.2.2.2.2.2.2.1
      · have e : '/' :: '/' :: (h ++ '/' :: pt) = ('/' :: '/' :: h) ++ '/' :: pt := by
          simp
        rw [e, List.getLast?_append_cons] at hd
        exact hplast d hd
    · have e : '/' :: '/' :: (h ++ (p ++ ['/']))
          = ('/' :: '/' :: (h ++ p)) ++ '/' :: [] := by simp
      rw [e, List.getLast?_append_cons] at hd
      rw [List.getLast?_singleton] at hd
      cases hd
      rfl
  · have e : '/' :: '/' :: (h ++ (p ++ (sl ++ '?' :: qs)))
        = ('/' :: '/' :: (h ++ (p ++ sl))) ++ '?' :: qs := by simp
    rw [e, List.getLast?_append_cons] at hd
    rcases qs with - | ⟨z, zs⟩
    · rw [List.getLast?_singleton] at hd
      cases hd
      rfl
    · rw [List.getLast?_cons_cons] at hd
      exact (hqs d (mem_of_getLast _ _ hd)).2

/-- Core of the dedup-collapse claim, stated over the explicit optional
    trailing slash `sl` and optional query suffix `ql`: a URL assembled from
    well-formed components normalizes to exactly the lowercased scheme, the
    lowercased `www.`-stripped host, and the slash-stripped path — the query
    suffix is gone. -/
theorem normParts_render_aux (s h p sl ql : List Char)
    (hs : goodSchemeB s = true) (hh : goodHostB h = true)
    (hp : goodPathB p = true)
    (hsl : sl = [] ∨ sl = ['/'])
    (hql : ql = [] ∨ ∃ qs, ql = '?' :: qs ∧
      ∀ c ∈ qs, c ≠ '#' ∧ isSpaceA c = false) :
    normParts (s ++ ':' :: '/' :: '/' :: (h ++ (p ++ (sl ++ ql))))
      = .ok (s.map toLowerA, wwwStrip (h.map toLowerA), rstripSlash (p ++ sl)) := by
  obtain ⟨hphead, hpchars, hplast⟩ := goodPath_facts p hp
  obtain ⟨hsne, hsall, c0, s0, hs0, halpha⟩ := goodScheme_facts s hs
  have hhf := goodHost_facts h hh
  have hslc : ∀ c ∈ sl, c = '/' := by
    rcases hsl with rfl | rfl
    · intro c hc; exact absurd hc (by simp)
    · intro c hc; simpa using hc
  have hqlc : ∀ c ∈ ql, c = '?' ∨ (c ≠ '#' ∧ isSpaceA c = false) := by
    rcases hql with rfl | ⟨qs, rfl, hqs⟩
    · intro c hc; exact absurd hc (by simp)
    · intro c hc
      rcases List.mem_cons.mp hc with h1 | h1
      · exact Or.inl h1
      · exact Or.inr (hqs c h1)
  have hclean := pyStrip_clean_scheme s ('/' :: '/' :: (h ++ (p ++ (sl ++ ql)))) hs
    (by
      intro d hd
      rcases List.mem_cons.mp hd with h1 | h1
      · subst h1; rfl
      rcases List.mem_cons.mp h1 with h1 | h1
      · subst h1; rfl
      rcases List.mem_append.mp h1 with h1 | h1
      · exact (hhf d h1).2.2.2.2.2.2.2.1
      rcases List.mem_append.mp h1 with h1 | h1
      · exact (hpchars d h1).2.2.2
      rcases List.mem_append.mp h1 with h1 | h1
      · rw [hslc d h1]; rfl
      · rcases hqlc d h1 with h2 | h2
        · rw [h2]; rfl
        · exact tabNl_false_of_space_false d h2.2)
    (render_tail_last h p sl ql hh hp hsl hql)
  have hsplit := urlsplit_authority s h (p ++ (sl ++ ql)) hs
    (fun c hc => ⟨(hhf c hc).2.2.2.2.2.2.2.2.2.2,
      (hhf c hc).2.2.2.2.2.1, (hhf c hc).2.2.2.2.2.2.1⟩)
    (by
      intro c hc
      rcases hphead with rfl | ⟨pt, rfl⟩
      · rw [List.nil_append] at hc
        rcases hsl with rfl | rfl
        · rw [List.nil_append] at hc
          rcases hql with rfl | ⟨qs, rfl, -⟩
          · exact absurd hc (by simp)
          · rw [List.head?_cons] at hc
            cases hc
            rfl
        · rw [List.cons_append, List.head?_cons] at hc
          cases hc
          rfl
      · rw [List.cons_append, List.head?_cons] at hc
        cases hc
        rfl)
    hclean.2
  have hnohash : '#' ∉ (p ++ (sl ++ ql)) := by
    intro hm
    rcases List.mem_append.mp hm with h1 | h1
    · exact (hpchars '#' h1).2.1 rfl
    rcases List.mem_append.mp h1 with h1 | h1
    · exact absurd (hslc '#' h1) (by decide)
    · rcases hqlc '#' h1 with h2 | h2
      · exact absurd h2 (by decide)
      · exact h2.1 rfl
  have hnoq : '?' ∉ (p ++ sl) := by
    intro hm
    rcases List.mem_append.mp hm with h1 | h1
    · exact (hpchars '?' h1).1 rfl
    · exact absurd (hslc '?' h1) (by decide)
  have hfr : splitDef '#' (p ++ (sl ++ ql)) = (p ++ (sl ++ ql), []) :=
    splitDef_none _ _ hnohash
  have hpq1 : (splitDef '?' (p ++ (sl ++ ql))).1 = p ++ sl := by
    rcases hql with rfl | ⟨qs, rfl, -⟩
    · rw [List.append_nil, splitDef_none _ _ hnoq]
    · have e : p ++ (sl ++ '?' :: qs) = (p ++ sl) ++ '?' :: qs := by simp
      rw [e, splitDef_marker _ _ _ hnoq]
  simp only [hfr, hpq1] at hsplit
  have hsemi : (p ++ sl).contains ';' = false := by
    apply not_contains_of
    intro hm
    rcases List.mem_append.mp hm with h1 | h1
    · exact (hpchars ';' h1).2.2.1 rfl
    · exact absurd (hslc ';' h1) (by decide)
  have hparse : urlparseCore
      (pyStrip (s ++ ':' :: '/' :: '/' :: (h ++ (p ++ (sl ++ ql)))))
      = .ok ⟨s.map toLowerA, h, p ++ sl,
             (splitDef '?' (p ++ (sl ++ ql))).2, []⟩ := by
    rw [hclean.1]
    exact urlparse_no_params _ _ hsplit hsemi
  rw [normParts_of_parse _ _ hparse]
  have hifS : ((List.map toLowerA s == ([] : List Char)) : Bool) = false := by
    rw [hs0]
    rfl
  have hhost : hostOf h = h.map toLowerA :=
    hostOf_good h (fun c hc => ⟨(hhf c hc).2.2.2.1, (hhf c hc).2.2.2.2.1,
      (hhf c hc).2.2.2.2.2.1⟩)
  simp only [hifS, Bool.false_eq_true, if_false, map_toLowerA_idem, hhost]

/-- Core of the dedup-collapse claim: a URL assembled by `renderURL` from
    well-formed components normalizes to exactly the lowercased scheme, the
    lowercased `www.`-stripped host, and the slash-stripped path — the query
    and the extra trailing slash are gone. -/
theorem normParts_render (s h p : List Char) (t : Bool) (q : Option (List Char))
    (hs : goodSchemeB s = true) (hh : goodHostB h = true)
    (hp : goodPathB p = true) (hq : goodQueryB q = true) :
    normParts (renderURL s h p t q)
      = .ok (s.map toLowerA, wwwStrip (h.map toLowerA), rstripSlash p) := by
  have hsl : (if t then ['/'] else ([] : List Char)) = []
      ∨ (if t then ['/'] else ([] : List Char)) = ['/'] := by
    rcases t with - | -
    · exact Or.inl rfl
    · exact Or.inr rfl
  have hps : rstripSlash (p ++ (if t then ['/'] else [])) = rstripSlash p := by
    rcases t with - | -
    · rw [(show (if false then ['/'] else ([] : List Char)) = [] from rfl),
        List.append_nil]
    · rw [(show (if true then ['/'] else ([] : List Char)) = ['/'] from rfl),
        rstripSlash_append_slash]
  rcases q with - | qs
  · have hre : renderURL s h p t none
        = s ++ ':' :: '/' :: '/' ::
            (h ++ (p ++ ((if t then ['/'] else []) ++ []))) := by
      unfold renderURL
      simp [List.append_assoc]
    rw [hre, normParts_render_aux s h p _ _ hs hh hp hsl (Or.inl rfl), hps]
  · have hqs2 : ∀ c ∈ qs, c ≠ '#' ∧ isSpaceA c = false := by
      simp only [goodQueryB, List.all_eq_true] at hq
      intro c hc
      have h1 := hq c hc
      simp only [Bool.not_eq_true', Bool.or_eq_false_iff, beq_eq_false_iff_ne,
        ne_eq] at h1
      exact h1
    have hre : renderURL s h p t (some qs)
        = s ++ ':' :: '/' :: '/' ::
            (h ++ (p ++ ((if t then ['/'] else []) ++ '?' :: qs))) := by
      unfold renderURL
      simp [List.append_assoc]
    rw [hre, normParts_render_aux s h p _ _ hs hh hp hsl
      (Or.inr ⟨qs, rfl, hqs2⟩), hps]


/-- C2: two URLs that name the same logical URL — same scheme and host up to
    ASCII case, same path, differing only in an optional extra trailing slash
    and an optional (tracking) query string — receive the same identity key
    from `hash_url`. -/
theorem C2_hash_collapse (s₁ s₂ h₁ h₂ p : List Char) (t₁ t₂ : Bool)
    (q₁ q₂ : Option (List Char))
    (hs₁ : goodSchemeB s₁ = true) (hs₂ : goodSchemeB s₂ = true)
    (hh₁ : goodHostB h₁ = true) (hh₂ : goodHostB h₂ = true)
    (hp : goodPathB p = true)
    (hq₁ : goodQueryB q₁ = true) (hq₂ : goodQueryB q₂ = true)
    (hseq : s₁.map toLowerA = s₂.map toLowerA)
    (hheq : h₁.map toLowerA = h₂.map toLowerA) :
    hash_url (String.mk (renderURL s₁ h₁ p t₁ q₁))
      = hash_url (String.mk (renderURL s₂ h₂ p t₂ q₂)) := by
  unfold hash_url normalize_url normalizeList
  rw [(show (String.mk (renderURL s₁ h₁ p t₁ q₁)).data
        = renderURL s₁ h₁ p t₁ q₁ from rfl),
      (show (String.mk (renderURL s₂ h₂ p t₂ q₂)).data
        = renderURL s₂ h₂ p t₂ q₂ from rfl),
      normParts_render s₁ h₁ p t₁ q₁ hs₁ hh₁ hp hq₁,
      normParts_render s₂ h₂ p t₂ q₂ hs₂ hh₂ hp hq₂,
      hseq, hheq]

/-- C2 witness: `HTTP://WWW.Example.COM/jobs?utm_source=x` and
    `http://www.example.com/jobs/` hash to the same identity key. -/
theorem C2_witness :
    hash_url (String.mk (renderURL "HTTP".data "WWW.Example.COM".data
        "/jobs".data false (some "utm_source=x".data)))
      = hash_url (String.mk (renderURL "http".data "www.example.com".data
        "/jobs".data true none)) :=
  C2_hash_collapse "HTTP".data "http".data "WWW.Example.COM".data
    "www.example.com".data "/jobs".data false true
    (some "utm_source=x".data) none
    (by decide) (by decide) (by decide) (by decide) (by decide)
    (by decide) (by decide) (by decide) (by decide)


/-- Reading off `normalize_url` from a computed `normParts`. -/
theorem normalizeList_of_parts (u S H P : List Char)
    (h : normParts u = .ok (S, H, P)) :
    normalizeList u = .ok (urlunsplitCore S H P [] []) := by
  unfold normalizeList
  rw [h]
  rfl

/-- Re-normalizing an authority-form URL whose components are already in
    normal form is the identity on the components. -/
theorem normParts_ok_authority (S H P : List Char)
    (hS : goodSchemeB S = true) (hSlow : S.map toLowerA = S)
    (hH : ∀ c ∈ H, isNetlocDelim c = false ∧ c ≠ '@' ∧ c ≠ ':' ∧ c ≠ '['
      ∧ c ≠ ']' ∧ isTabNl c = false)
    (hHlow : H.map toLowerA = H)
    (hwww : (H.take 4 == "www.".data) = false)
    (hP : ∀ c ∈ P, c ≠ '?' ∧ c ≠ '#' ∧ c ≠ ';' ∧ isTabNl c = false)
    (hPhead : P = [] ∨ P.head? = some '/')
    (hPlast : ∀ c, P.getLast? = some c → isSpaceA c = false ∧ c ≠ '/')
    (hHlast : P = [] → ∀ c, H.getLast? = some c → isSpaceA c = false) :
    normParts (S ++ ':' :: '/' :: '/' :: (H ++ P)) = .ok (S, H, P) := by
  obtain ⟨hsne, hsall, c0, s0, hs0, halpha⟩ := goodScheme_facts S hS
  have hlastO : ∀ c, ('/' :: '/' :: (H ++ P)).getLast? = some c →
      isSpaceA c = false := by
    intro d hd
    rcases hPe : P with - | ⟨x, xs⟩
    · rw [hPe, List.append_nil] at hd
      rcases H with - | ⟨y, ys⟩
      · rw [(show (['/', '/'] : List Char).getLast? = some '/' by decide)] at hd
        cases hd
        rfl
      · rw [List.getLast?_cons_cons, List.getLast?_cons_cons] at hd
        exact hHlast hPe d hd
    · rw [hPe] at hd
      have e : '/' :: '/' :: (H ++ x :: xs) = ('/' :: '/' :: H) ++ x :: xs := by
        simp
      rw [e, List.getLast?_append_cons] at hd
      exact (hPlast d (hPe ▸ hd)).1
  have hclean := pyStrip_clean_scheme S ('/' :: '/' :: (H ++ P)) hS
    (by
      intro d hd
      rcases List.mem_cons.mp hd with h1 | h1
      · subst h1; rfl
      rcases List.mem_cons.mp h1 with h1 | h1
      · subst h1; rfl
      rcases List.mem_append.mp h1 with h1 | h1
      · exact (hH d h1).2.2.2.2.2
      · exact (hP d h1).2.2.2)
    hlastO
  have hsplit := urlsplit_authority S H P hS
    (fun c hc => ⟨(hH c hc).1, (hH c hc).2.2.2.1, (hH c hc).2.2.2.2.1⟩)
    (fun c hc => by
      rcases hPhead with rfl | hh2
      · exact absurd hc (by simp)
      · rw [hh2] at hc
        injection hc with hx
        subst hx
        rfl)
    hclean.2
  have hfr : splitDef '#' P = (P, []) :=
    splitDef_none _ _ (fun hm => (hP '#' hm).2.1 rfl)
  have hpq : splitDef '?' P = (P, []) :=
    splitDef_none _ _ (fun hm => (hP '?' hm).1 rfl)
  simp only [hfr, hpq] at hsplit
  have hsemi : P.contains ';' = false :=
    not_contains_of _ _ (fun hm => (hP ';' hm).2.2.1 rfl)
  have hparse : urlparseCore (pyStrip (S ++ ':' :: '/' :: '/' :: (H ++ P)))
      = .ok ⟨S.map toLowerA, H, P, [], []⟩ := by
    rw [hclean.1]
    exact urlparse_no_params _ _ hsplit hsemi
  rw [normParts_of_parse _ _ hparse, hSlow]
  have hifS : ((S == ([] : List Char)) : Bool) = false := by
    rw [hs0]
    rfl
  have hhost : hostOf H = H.map toLowerA :=
    hostOf_good H (fun c hc => ⟨(hH c hc).2.1, (hH c hc).2.2.1,
      (hH c hc).2.2.2.1⟩)
  have hwwwe : wwwStrip H = H := by
    unfold wwwStrip
    rw [if_neg (show ¬ ((H.take 4 == "www.".data) = true)
      from by rw [hwww]; exact Bool.false_ne_true)]
  have hrs : rstripSlash P = P :=
    rstripSlash_no_slash P (fun c hc => (hPlast c hc).2)
  simp only [hifS, Bool.false_eq_true, if_false, hSlow, hhost, hHlow, hwwwe, hrs]

/-- Re-normalizing a no-authority URL whose components are already in normal
    form is the identity on the components. -/
theorem normParts_ok_no_authority (S P : List Char)
    (hS : goodSchemeB S = true) (hSlow : S.map toLowerA = S)
    (hP : ∀ c ∈ P, c ≠ '?' ∧ c ≠ '#' ∧ c ≠ ';' ∧ isTabNl c = false)
    (hPlast : ∀ c, P.getLast? = some c → isSpaceA c = false ∧ c ≠ '/')
    (hPP : (P.take 2 == ['/', '/']) = false) :
    normParts (S ++ ':' :: P) = .ok (S, [], P) := by
  obtain ⟨hsne, hsall, c0, s0, hs0, halpha⟩ := goodScheme_facts S hS
  have hclean := pyStrip_clean_scheme S P hS
    (fun c hc => (hP c hc).2.2.2)
    (fun c hc => (hPlast c hc).1)
  have hsplit := urlsplit_no_authority S P hS hPP hclean.2
  have hfr : splitDef '#' P = (P, []) :=
    splitDef_none _ _ (fun hm => (hP '#' hm).2.1 rfl)
  have hpq : splitDef '?' P = (P, []) :=
    splitDef_none _ _ (fun hm => (hP '?' hm).1 rfl)
  simp only [hfr, hpq] at hsplit
  have hsemi : P.contains ';' = false :=
    not_contains_of _ _ (fun hm => (hP ';' hm).2.2.1 rfl)
  have hparse : urlparseCore (pyStrip (S ++ ':' :: P))
      = .ok ⟨S.map toLowerA, [], P, [], []⟩ := by
    rw [hclean.1]
    exact urlparse_no_params _ _ hsplit hsemi
  rw [normParts_of_parse _ _ hparse, hSlow]
  have hifS : ((S == ([] : List Char)) : Bool) = false := by
    rw [hs0]
    rfl
  have hrs : rstripSlash P = P :=
    rstripSlash_no_slash P (fun c hc => (hPlast c hc).2)
  simp only [hifS, Bool.false_eq_true, if_false, hSlow, hrs,
    (show hostOf [] = ([] : List Char) from rfl),
    (show wwwStrip [] = ([] : List Char) from rfl)]


/-- C9 counterexample: URL normalization is not idempotent.  A host whose
    lowercased form still starts with `www.` after one `www.` prefix removal
    loses a further prefix on the second pass:
    `http://www.www.a` normalizes to `http://www.a`, which itself normalizes
    to `http://a`. -/
theorem C9_counterexample :
    normalize_url "http://www.www.a" = .ok "http://www.a" ∧
    normalize_url "http://www.a" = .ok "http://a" ∧
    ("http://a" : String) ≠ "http://www.a" :=
  ⟨rfl, rfl, by decide⟩

/-- C9 amended: `normalize_url` is idempotent on every input whose normal
    form is stable — the normalized host no longer starts with `www.`, is
    free of the authority delimiters `[`, `]`, `:`, `@`, `/`, `?`, `#` and
    of tab/newline characters, is already lowercase, and does not end in
    whitespace when the path is empty; and the normalized path is empty or
    absolute, free of `?`, `#`, `;` and tab/newline, does not end in a
    slash or whitespace, and does not start with `//` when the host is
    empty.  (The unconditional claim is refuted by `http://www.www.a`.) -/
theorem C9_amended (u S H P : List Char)
    (hu : normParts u = .ok (S, H, P))
    (hS : goodSchemeB S = true) (hSlow : S.map toLowerA = S)
    (hH : ∀ c ∈ H, isNetlocDelim c = false ∧ c ≠ '@' ∧ c ≠ ':' ∧ c ≠ '['
      ∧ c ≠ ']' ∧ isTabNl c = false)
    (hHlow : H.map toLowerA = H)
    (hwww : (H.take 4 == "www.".data) = false)
    (hP : ∀ c ∈ P, c ≠ '?' ∧ c ≠ '#' ∧ c ≠ ';' ∧ isTabNl c = false)
    (hPhead : P = [] ∨ P.head? = some '/')
    (hPlast : ∀ c, P.getLast? = some c → isSpaceA c = false ∧ c ≠ '/')
    (hHlast : P = [] → ∀ c, H.getLast? = some c → isSpaceA c = false)
    (hHP : H = [] → (P.take 2 == ['/', '/']) = false) :
    normalizeList u = .ok (urlunsplitCore S H P [] []) ∧
    normalizeList (urlunsplitCore S H P [] [])
      = .ok (urlunsplitCore S H P [] []) := by
  obtain ⟨hsne, hsall, c0, s0, hs0, halpha⟩ := goodScheme_facts S hS
  have hSne : (S != ([] : List Char)) = true := by
    rw [hs0]
    rfl
  have hPone : (P != ([] : List Char) && P.take 1 != ['/']) = false := by
    rcases hPhead with rfl | hh2
    · rfl
    · rcases P with - | ⟨x, xs⟩
      · rfl
      · rw [List.head?_cons] at hh2
        injection hh2 with hx
        subst hx
        rfl
  refine ⟨normalizeList_of_parts u S H P hu, ?_⟩
  by_cases hHnil : H = []
  · subst hHnil
    rcases hUN : usesNetloc.contains S with - | -
    · have hO : urlunsplitCore S [] P [] [] = S ++ ':' :: P := by
        unfold urlunsplitCore
        dsimp only
        rw [if_neg (show ¬ ((([] : List Char) != [])
              || (S != [] && usesNetloc.contains S && P.take 2 != ['/', '/']))
              = true from by rw [hUN]; simp),
          if_pos (show (S != ([] : List Char)) = true from hSne),
          if_neg (show ¬ (([] : List Char) != []) = true from Bool.false_ne_true),
          if_neg (show ¬ (([] : List Char) != []) = true from Bool.false_ne_true)]
      have h2 := normalizeList_of_parts (S ++ ':' :: P) S [] P
        (normParts_ok_no_authority S P hS hSlow hP hPlast (hHP rfl))
      rw [hO]
      rw [hO] at h2
      exact h2
    · have hPtake : (P.take 2 != ['/', '/']) = true := by
        show (!(P.take 2 == ['/', '/'])) = true
        rw [hHP rfl]
        rfl
      have hO : urlunsplitCore S [] P [] []
          = S ++ ':' :: '/' :: '/' :: ([] ++ P) := by
        unfold urlunsplitCore
        dsimp only
        rw [if_pos (show ((([] : List Char) != [])
              || (S != [] && usesNetloc.contains S && P.take 2 != ['/', '/']))
              = true from by rw [hSne, hUN, hPtake]; rfl),
          if_neg (show ¬ (P != ([] : List Char) && P.take 1 != ['/']) = true
            from by rw [hPone]; exact Bool.false_ne_true),
          if_pos (show (S != ([] : List Char)) = true from hSne),
          if_neg (show ¬ (([] : List Char) != []) = true from Bool.false_ne_true),
          if_neg (show ¬ (([] : List Char) != []) = true from Bool.false_ne_true)]
      have h2 := normalizeList_of_parts (S ++ ':' :: '/' :: '/' :: ([] ++ P))
        S [] P
        (normParts_ok_authority S [] P hS hSlow hH hHlow hwww hP hPhead hPlast
          hHlast)
      rw [hO]
      rw [hO] at h2
      exact h2
  · have hHne : (H != ([] : List Char)) = true := by
      rcases H with - | ⟨a, b⟩
      · exact absurd rfl hHnil
      · rfl
    have hO : urlunsplitCore S H P [] []
        = S ++ ':' :: '/' :: '/' :: (H ++ P) := by
      unfold urlunsplitCore
      dsimp only
      rw [if_pos (show ((H != [])
            || (S != [] && usesNetloc.contains S && P.take 2 != ['/', '/']))
            = true from by simp [hHne]),
        if_neg (show ¬ (P != ([] : List Char) && P.take 1 != ['/']) = true
          from by rw [hPone]; exact Bool.false_ne_true),
        if_pos (show (S != ([] : List Char)) = true from hSne),
        if_neg (show ¬ (([] : List Char) != []) = true from Bool.false_ne_true),
        if_neg (show ¬ (([] : List Char) != []) = true from Bool.false_ne_true)]
    have h2 := normalizeList_of_parts (S ++ ':' :: '/' :: '/' :: (H ++ P))
      S H P
      (normParts_ok_authority S H P hS hSlow hH hHlow hwww hP hPhead hPlast
        hHlast)
    rw [hO]
    rw [hO] at h2
    exact h2

/-- C9 amended witness: re-normalizing the normal form of `http://a/x` is the
    identity. -/
theorem C9_amended_witness :
    normalizeList "http://a/x".data
      = .ok (urlunsplitCore "http".data "a".data "/x".data [] []) ∧
    normalizeList (urlunsplitCore "http".data "a".data "/x".data [] [])
      = .ok (urlunsplitCore "http".data "a".data "/x".data [] []) :=
  C9_amended "http://a/x".data "http".data "a".data "/x".data
    rfl (by decide) (by decide) (by decide) (by decide) (by decide)
    (by decide)
    (by decide)
    (by
      intro c hc
      rw [(show ("/x".data.getLast? : Option Char) = some 'x' by decide)] at hc
      injection hc with hx
      subst hx
      exact ⟨rfl, by decide⟩)
    (fun h => absurd h (by decide))
    (fun h => absurd h (by decide))

end Sykr







